import Mathlib

/-!
Verification of `pydantic/datetime_parse.py`.

The module parses dates, times, datetimes and durations from strings, bytes,
ints and floats, using anchored/partially-anchored regular expressions and
Python's `datetime` types.  This file gives a shallow embedding:

* Python `float` values are modelled by `PyFloat` (an exact rational, or one of
  the special values `inf`, `-inf`, `nan`).  Where CPython rounds a decimal
  literal to the nearest IEEE double, the model keeps the exact rational; every
  input appearing in the claims is binary-representable up to the microsecond
  rounding performed by `timedelta`, so the two agree on all facts proved here.
* `datetime.date` / `time` / `datetime` / `timedelta` are modelled by
  `PyDate` / `PyTime` / `PyDateTime` / total microsecond counts (`ℤ`),
  with the CPython range checks (years 1..9999, `timedelta` day bound).
* each regular expression of the source is modelled by a hand-translated
  matcher with the exact backtracking semantics of the Python `re` module
  (greedy quantifiers, ordered alternatives, `$` matching at the end of the
  string or before a final newline).
* exceptions are modelled by `PRes`: a value, a classified error, or the
  marker `.diverge` for the one input on which the source loops forever
  (see `unixLoopP_inf_none`).
-/

/-! ### Characters, digits, Python `float()` and `int()` -/

def digitVal (c : Char) : ℕ := c.toNat - 48

def digitsToNat (l : List Char) : ℕ := l.foldl (fun a c => 10 * a + digitVal c) 0

/-- `str.ljust(6, '0')`: right-pad with `'0'` to length 6. -/
def ljust6 (l : List Char) : List Char := l ++ List.replicate (6 - l.length) '0'

/-- Python's `$` in `re.match`: end of string, or just before a final newline. -/
def atEnd : List Char → Bool
  | [] => true
  | ['\n'] => true
  | _ => false

/-- Greedy `\d{0,n}`: take up to `n` leading digits. -/
def takeDigitsUpTo : ℕ → List Char → List Char × List Char
  | 0, l => ([], l)
  | _ + 1, [] => ([], [])
  | n + 1, c :: r =>
    if c.isDigit then
      let (d, r') := takeDigitsUpTo n r
      (c :: d, r')
    else ([], c :: r)

/-- Greedy `\d+`: `none` if the first character is not a digit. -/
def takeDigits1 (l : List Char) : Option (List Char × List Char) :=
  match l with
  | c :: r =>
    if c.isDigit then some (c :: r.takeWhile Char.isDigit, r.dropWhile Char.isDigit)
    else none
  | [] => none

/-- Spelled-out condition "the first character, if any, is not a digit". -/
def headNotDigit (l : List Char) : Prop := ∀ c, l.head? = some c → c.isDigit = false

def isPySpace (c : Char) : Bool :=
  c = ' ' || c = '\t' || c = '\n' || c = '\r' || c = '\x0b' || c = '\x0c'

/-- An exact decimal fraction `num / 10 ^ exp`.  Every IEEE double is a
(dyadic, hence decimal) fraction of this form, and every arithmetic step the
source performs on floats (parsing decimal literals, dividing by 1000, the
linear combinations inside `timedelta`) stays decimal, so finite Python
floats are modelled exactly by this type.  Where CPython first rounds a
decimal literal to the nearest double, the model keeps the exact value; the
two agree on every fact proved in this file. -/
structure Dec where
  num : ℤ
  exp : ℕ
  deriving Repr

/-- The rational value of a decimal fraction. -/
def Dec.toQ (d : Dec) : ℚ := (d.num : ℚ) / 10 ^ d.exp

def Dec.ofInt (n : ℤ) : Dec := ⟨n, 0⟩

def Dec.neg (d : Dec) : Dec := ⟨-d.num, d.exp⟩

def Dec.add (a b : Dec) : Dec :=
  ⟨a.num * 10 ^ (max a.exp b.exp - a.exp) + b.num * 10 ^ (max a.exp b.exp - b.exp),
    max a.exp b.exp⟩

def Dec.mulInt (a : Dec) (k : ℤ) : Dec := ⟨a.num * k, a.exp⟩

def Dec.mulPow10 (a : Dec) (k : ℕ) : Dec := ⟨a.num * 10 ^ k, a.exp⟩

def Dec.divPow10 (a : Dec) (k : ℕ) : Dec := ⟨a.num, a.exp + k⟩

/-- `a ≥ c` for an integer `c`. -/
def Dec.geInt (a : Dec) (c : ℤ) : Bool := c * 10 ^ a.exp ≤ a.num

/-- `a > c` for an integer `c`. -/
def Dec.gtInt (a : Dec) (c : ℤ) : Bool := c * 10 ^ a.exp < a.num

/-- `⌊a⌋` (euclidean division by the positive `10 ^ exp` is the floor). -/
def Dec.floor (a : Dec) : ℤ := a.num / (10 ^ a.exp : ℤ)

/-- Round to the nearest integer, ties to even — the rounding CPython's
`timedelta` applies to a fractional microsecond total. -/
def Dec.roundHalfEven (d : Dec) : ℤ :=
  let f := d.floor
  let rn := d.num - f * 10 ^ d.exp
  if 2 * rn < 10 ^ d.exp then f
  else if (10 : ℤ) ^ d.exp < 2 * rn then f + 1
  else if f % 2 = 0 then f else f + 1

inductive PyFloat where
  | finite (q : Dec)
  | inf
  | ninf
  | nan
  deriving Repr

def PyFloat.neg : PyFloat → PyFloat
  | .finite q => .finite q.neg
  | .inf => .ninf
  | .ninf => .inf
  | .nan => .nan

/-- Digit run allowing single underscores between digits (CPython numeric
literals), continuing after an initial digit.  Returns the digits with
underscores removed, and the unconsumed rest. -/
def digitsUCont : List Char → List Char × List Char
  | c :: r =>
    if c.isDigit then
      let p := digitsUCont r
      (c :: p.1, p.2)
    else if c = '_' then
      match r with
      | c2 :: r2 =>
        if c2.isDigit then
          let p := digitsUCont r2
          (c2 :: p.1, p.2)
        else ([], c :: c2 :: r2)
      | [] => ([], [c])
    else ([], c :: r)
  | [] => ([], [])

/-- Digit run (with underscores) that must start with a digit; empty result
means no digits were consumed. -/
def digitsU : List Char → List Char × List Char
  | c :: r =>
    if c.isDigit then
      let (d, r') := digitsUCont r
      (c :: d, r')
    else ([], c :: r)
  | [] => ([], [])

/-- The words `inf`, `infinity`, `nan` accepted case-insensitively by
`float()`. -/
def pyFloatWord : List Char → Option (PyFloat × List Char)
  | a :: b :: c :: r =>
    if a.toLower = 'i' && b.toLower = 'n' && c.toLower = 'f' then
      match r with
      | d :: e :: f :: g :: h :: r2 =>
        if d.toLower = 'i' && e.toLower = 'n' && f.toLower = 'i' && g.toLower = 't' &&
            h.toLower = 'y' then
          some (.inf, r2)
        else some (.inf, r)
      | _ => some (.inf, r)
    else if a.toLower = 'n' && b.toLower = 'a' && c.toLower = 'n' then some (.nan, r)
    else none
  | _ => none

/-- Unsigned decimal literal of `float()`: `digits [. digits] [e[±]digits]`,
needing at least one mantissa digit.  Returns the exact decimal value. -/
def pyFloatNumber (l : List Char) : Option (Dec × List Char) :=
  let (ip, r1) := digitsU l
  let (fp, r2) :=
    match r1 with
    | '.' :: r => digitsU r
    | _ => ([], r1)
  if ip = [] && fp = [] then none
  else
    let mant : Dec := ⟨(digitsToNat ip : ℤ) * 10 ^ fp.length + digitsToNat fp, fp.length⟩
    match r2 with
    | e :: r3 =>
      if e.toLower = 'e' then
        let (eneg, r4) :=
          match r3 with
          | '-' :: r => (true, r)
          | '+' :: r => (false, r)
          | _ => (false, r3)
        match digitsU r4 with
        | ([], _) => none
        | (ed, r5) =>
          let ex : ℕ := digitsToNat ed
          some ((if eneg then mant.divPow10 ex else mant.mulPow10 ex), r5)
      else some (mant, e :: r3)
    | [] => some (mant, [])

/-- Python's builtin `float(str)`.  Exact over decimal fractions: rounding to
the nearest double (and overflow of huge literals to `inf`) is not modelled;
no claim depends on inputs where the difference is observable. -/
def pyFloatOfString (s : String) : Option PyFloat :=
  let l := s.data.dropWhile isPySpace
  let (neg, l1) :=
    if l.head? = some '-' then (true, l.tail)
    else if l.head? = some '+' then (false, l.tail)
    else (false, l)
  match pyFloatWord l1 with
  | some (v, r) =>
    if r.all isPySpace then some (if neg then v.neg else v) else none
  | none =>
    match pyFloatNumber l1 with
    | some (q, r) =>
      if r.all isPySpace then some (.finite (if neg then q.neg else q)) else none
    | none => none

/-- Python's builtin `int(str)` as used on the (all-digit) timezone slices. -/
def pyIntOfString (l : List Char) : Option ℤ :=
  let (neg, l1) :=
    if l.head? = some '-' then (true, l.tail)
    else if l.head? = some '+' then (false, l.tail)
    else (false, l)
  if l1 ≠ [] && l1.all Char.isDigit then
    some (if neg then -(digitsToNat l1 : ℤ) else (digitsToNat l1 : ℤ))
  else none

/-- `str()` of an int. -/
def pyStrOfInt (n : ℤ) : String :=
  if n < 0 then "-" ++ toString n.natAbs else toString n.natAbs

/-- Decimal digits of the fractional part of a nonnegative decimal fraction,
up to `fuel` digits (used only to model `str(float)`). -/
def fracDigits : ℕ → Dec → List Char
  | 0, _ => []
  | fuel + 1, q =>
    if q.num = 0 then []
    else
      let q10 : Dec := q.mulInt 10
      let d := q10.floor
      Nat.digitChar d.toNat :: fracDigits fuel ⟨q10.num - d * 10 ^ q10.exp, q10.exp⟩

/-- `str()` of a float.  Models the plain decimal renderings (`"1.5"`,
`"-2.0"`, `"inf"`, ...).  CPython's shortest-round-trip repr and its switch to
exponent notation for large/small magnitudes are not modelled; the claims
never route such values through `str`. -/
def pyStrOfFloat : PyFloat → String
  | .inf => "inf"
  | .ninf => "-inf"
  | .nan => "nan"
  | .finite q =>
    let sign := if q.num < 0 then "-" else ""
    let a : Dec := ⟨|q.num|, q.exp⟩
    let ip := a.floor
    let frac := fracDigits 400 ⟨a.num - ip * 10 ^ a.exp, a.exp⟩
    sign ++ toString ip.natAbs ++ "." ++ (if frac = [] then "0" else String.mk frac)


/-! ### The proleptic Gregorian calendar (CPython `datetime`'s calendar) -/

def isLeap (y : ℤ) : Bool := y % 4 = 0 && (y % 100 ≠ 0 || y % 400 = 0)

def daysInMonth (y : ℤ) (m : ℕ) : ℕ :=
  match m with
  | 1 => 31 | 3 => 31 | 5 => 31 | 7 => 31 | 8 => 31 | 10 => 31 | 12 => 31
  | 4 => 30 | 6 => 30 | 9 => 30 | 11 => 30
  | 2 => if isLeap y then 29 else 28
  | _ => 0

/-- Days since 1970-01-01 of a civil date (Howard Hinnant's algorithm; `ℤ`
division is euclidean, which coincides with floor division for the positive
divisors used, matching Python's `//`). -/
def daysFromCivil (y m d : ℤ) : ℤ :=
  let y' := if m ≤ 2 then y - 1 else y
  let era := y' / 400
  let yoe := y' - era * 400
  let doy := (153 * (if 2 < m then m - 3 else m + 9) + 2) / 5 + d - 1
  let doe := yoe * 365 + yoe / 4 - yoe / 100 + doy
  era * 146097 + doe - 719468

/-- Civil date (year, month, day) of a count of days since 1970-01-01. -/
def civilFromDays (z : ℤ) : ℤ × ℤ × ℤ :=
  let z' := z + 719468
  let era := z' / 146097
  let doe := z' - era * 146097
  let yoe := (doe - doe / 1460 + doe / 36524 - doe / 146096) / 365
  let y := yoe + era * 400
  let doy := doe - (365 * yoe + yoe / 4 - yoe / 100)
  let mp := (5 * doy + 2) / 153
  let d := doy - (153 * mp + 2) / 5 + 1
  let m := if mp < 10 then mp + 3 else mp - 9
  (if m ≤ 2 then y + 1 else y, m, d)

/-- 0001-01-01 as days since the epoch (`date.min.toordinal() - 719163`). -/
def minDay : ℤ := -719162

/-- 9999-12-31 as days since the epoch (`date.max.toordinal() - 719163`). -/
def maxDay : ℤ := 2932896

/-! ### The Python `datetime` value types and constructors -/

structure PyDate where
  year : ℕ
  month : ℕ
  day : ℕ
  deriving DecidableEq, Repr

structure PyTime where
  hour : ℕ
  minute : ℕ
  second : ℕ
  microsecond : ℕ
  deriving DecidableEq, Repr

/-- A `datetime.datetime`; `tzinfo` is `none` for a naive value or
`some o` for `timezone(timedelta(minutes=o))` (all offsets built by the
parser are whole minutes). -/
structure PyDateTime where
  year : ℕ
  month : ℕ
  day : ℕ
  hour : ℕ
  minute : ℕ
  second : ℕ
  microsecond : ℕ
  tzinfo : Option ℤ
  deriving DecidableEq, Repr

/-- `datetime.date(year, month, day)`: `none` models the `ValueError` raised
on out-of-range components. -/
def mkDate (y m d : ℕ) : Option PyDate :=
  if 1 ≤ y ∧ y ≤ 9999 ∧ 1 ≤ m ∧ m ≤ 12 ∧ 1 ≤ d ∧ d ≤ daysInMonth (y : ℤ) m then
    some ⟨y, m, d⟩
  else none

/-- `datetime.time(hour, minute, second, microsecond)`. -/
def mkTime (h m s us : ℕ) : Option PyTime :=
  if h ≤ 23 ∧ m ≤ 59 ∧ s ≤ 59 ∧ us ≤ 999999 then some ⟨h, m, s, us⟩ else none

/-- `datetime.datetime(...)`. -/
def mkDatetime (y mo d h mi s us : ℕ) (tz : Option ℤ) : Option PyDateTime :=
  if 1 ≤ y ∧ y ≤ 9999 ∧ 1 ≤ mo ∧ mo ≤ 12 ∧ 1 ≤ d ∧ d ≤ daysInMonth (y : ℤ) mo ∧
      h ≤ 23 ∧ mi ≤ 59 ∧ s ≤ 59 ∧ us ≤ 999999 then
    some ⟨y, mo, d, h, mi, s, us, tz⟩
  else none

/-- `timezone(timedelta(minutes=offset))`: the offset must be strictly
between -24h and +24h, else `ValueError`. -/
def mkTimezone (offset : ℤ) : Option ℤ :=
  if -1440 < offset ∧ offset < 1440 then some offset else none

def PyDateTime.toDate (dt : PyDateTime) : PyDate := ⟨dt.year, dt.month, dt.day⟩

def PyDateTime.toTime (dt : PyDateTime) : PyTime :=
  ⟨dt.hour, dt.minute, dt.second, dt.microsecond⟩

/-- The wall-clock fields of a datetime as microseconds since 1970-01-01
(for an aware value with UTC offset 0 this is the UTC instant). -/
def dtTotalMicros (dt : PyDateTime) : ℤ :=
  daysFromCivil dt.year dt.month dt.day * 86400000000 +
    ((dt.hour * 3600 + dt.minute * 60 + dt.second) * 1000000 + dt.microsecond)

/-- The naive datetime at `t` microseconds since 1970-01-01; `none` models the
`OverflowError` CPython raises when `datetime + timedelta` leaves years
1..9999. -/
def dtFromMicros (t : ℤ) : Option PyDateTime :=
  let day := t / 86400000000
  let rem := (t % 86400000000).toNat
  if minDay ≤ day ∧ day ≤ maxDay then
    let c := civilFromDays day
    some ⟨c.1.toNat, c.2.1.toNat, c.2.2.toNat,
      rem / 3600000000, rem % 3600000000 / 60000000, rem % 60000000 / 1000000, rem % 1000000,
      none⟩
  else none

/-- The time-of-day `t` microseconds after midnight (modulo one day) — the
decomposition `datetime.time()` performs on the sub-day remainder. -/
def timeOfDayMicros (t : ℤ) : PyTime :=
  let rem := (t % 86400000000).toNat
  ⟨rem / 3600000000, rem % 3600000000 / 60000000, rem % 60000000 / 1000000, rem % 1000000⟩

/-- `dt + timedelta` for a naive `dt` (the result keeps `dt`'s tzinfo). -/
def dtAdd (dt : PyDateTime) (micros : ℤ) : Option PyDateTime :=
  (dtFromMicros (dtTotalMicros dt + micros)).map fun r => { r with tzinfo := dt.tzinfo }

/-- `datetime(1970, 1, 1)` (line 60). -/
def EPOCH : PyDateTime := ⟨1970, 1, 1, 0, 0, 0, 0, none⟩

/-- `datetime.min`. -/
def datetimeMin : PyDateTime := ⟨1, 1, 1, 0, 0, 0, 0, none⟩

/-- `-timedelta.max` in microseconds (`timedelta(days=-999999999)`). -/
def TDMIN : ℤ := -86399999913600000000

/-- `timedelta.max` in microseconds. -/
def TDMAX : ℤ := 86399999999999999999

/-- A `timedelta` from a total microsecond count, with CPython's range check
(`OverflowError` outside). -/
def mkTimedelta (t : ℤ) : Option ℤ :=
  if TDMIN ≤ t ∧ t ≤ TDMAX then some t else none

/-- `timedelta(days=..., hours=..., minutes=..., seconds=..., microseconds=...)`
with decimal (modelled float) arguments: the exact total is rounded
half-to-even to a whole microsecond count, then range-checked. -/
def timedeltaOfComponents (days hours minutes seconds microseconds : Dec) : Option ℤ :=
  mkTimedelta (Dec.roundHalfEven
    (((((days.mulInt 86400).add (hours.mulInt 3600)).add (minutes.mulInt 60)).add
        seconds).mulPow10 6 |>.add microseconds))

/-! ### Matchers for the five regular expressions

Each matcher implements the exact semantics of the compiled pattern under
`re.match`: anchored at the start, greedy quantifiers trying the longer
alternative first, optional groups trying presence before absence, and full
backtracking expressed with `<|>` over the whole continuation. -/

/-- `\d{1,2}` with continuation backtracking (two digits tried first). -/
def matchD12 {α : Type} (s : List Char) (k : ℕ → List Char → Option α) : Option α :=
  match s with
  | a :: b :: r =>
    if a.isDigit then
      if b.isDigit then k (10 * digitVal a + digitVal b) r <|> k (digitVal a) (b :: r)
      else k (digitVal a) (b :: r)
    else none
  | [a] => if a.isDigit then k (digitVal a) [] else none
  | [] => none

/-- `\d{4}`. -/
def matchD4 {α : Type} (s : List Char) (k : ℕ → List Char → Option α) : Option α :=
  match s with
  | a :: b :: c :: d :: r =>
    if a.isDigit && b.isDigit && c.isDigit && d.isDigit then
      k (digitsToNat [a, b, c, d]) r
    else none
  | _ => none

structure TimeGroups where
  hour : ℕ
  minute : ℕ
  second : Option ℕ
  microsecond : Option (List Char)
  deriving DecidableEq, Repr

/-- `time_re` (lines 26-28):
`(?P<hour>\d{1,2}):(?P<minute>\d{1,2})(?::(?P<second>\d{1,2})(?:\.(?P<microsecond>\d{1,6})\d{0,6})?)?`
— note the absence of any end anchor: trailing characters are ignored. -/
def timeRe (s : List Char) : Option TimeGroups :=
  matchD12 s fun h r1 =>
    match r1 with
    | ':' :: r2 =>
      matchD12 r2 fun m r3 =>
        (match r3 with
         | ':' :: r4 =>
           matchD12 r4 fun sec r5 =>
             match r5 with
             | '.' :: r6 =>
               let (cap, _) := takeDigitsUpTo 6 r6
               some ⟨h, m, some sec, if cap = [] then none else some cap⟩
             | _ => some ⟨h, m, some sec, none⟩
         | _ => none)
        <|> some ⟨h, m, none, none⟩
    | _ => none

/-- `date_re` (line 24): `(?P<year>\d{4})-(?P<month>\d{1,2})-(?P<day>\d{1,2})$`. -/
def dateRe (s : List Char) : Option (ℕ × ℕ × ℕ) :=
  matchD4 s fun y r1 =>
    match r1 with
    | '-' :: r2 =>
      matchD12 r2 fun mo r3 =>
        match r3 with
        | '-' :: r4 =>
          matchD12 r4 fun d r5 => if atEnd r5 then some (y, mo, d) else none
        | _ => none
    | _ => none

structure DtGroups where
  year : ℕ
  month : ℕ
  day : ℕ
  hour : ℕ
  minute : ℕ
  second : Option ℕ
  microsecond : Option (List Char)
  tzinfo : Option (List Char)
  deriving DecidableEq, Repr

/-- `(?P<tzinfo>Z|[+-]\d{2}(?::?\d{2})?)?$`: the optional timezone capture
followed by the end anchor, returning the raw captured characters. -/
def matchTzEnd (s : List Char) : Option (Option (List Char)) :=
  (match s with
   | 'Z' :: r => if atEnd r then some (some ['Z']) else none
   | c :: d1 :: d2 :: r =>
     if (c = '+' || c = '-') && d1.isDigit && d2.isDigit then
       (match r with
        | ':' :: e1 :: e2 :: r2 =>
          if e1.isDigit && e2.isDigit && atEnd r2 then
            some (some [c, d1, d2, ':', e1, e2])
          else none
        | e1 :: e2 :: r2 =>
          if e1.isDigit && e2.isDigit && atEnd r2 then
            some (some [c, d1, d2, e1, e2])
          else none
        | _ => none)
       <|> (if atEnd r then some (some [c, d1, d2]) else none)
     else none
   | _ => none)
  <|> (if atEnd s then some none else none)

/-- `datetime_re` (lines 30-35). -/
def datetimeRe (s : List Char) : Option DtGroups :=
  matchD4 s fun y r1 =>
    match r1 with
    | '-' :: r2 =>
      matchD12 r2 fun mo r3 =>
        match r3 with
        | '-' :: r4 =>
          matchD12 r4 fun dy r5 =>
            match r5 with
            | sep :: r6 =>
              if sep = 'T' || sep = ' ' then
                matchD12 r6 fun h r7 =>
                  match r7 with
                  | ':' :: r8 =>
                    matchD12 r8 fun mi r9 =>
                      (match r9 with
                       | ':' :: r10 =>
                         matchD12 r10 fun sec r11 =>
                           (match r11 with
                            | '.' :: r12 =>
                              match takeDigitsUpTo 6 r12 with
                              | ([], _) => none
                              | (cap, r13) =>
                                let (_, r14) := takeDigitsUpTo 6 r13
                                (matchTzEnd r14).map fun tz =>
                                  ⟨y, mo, dy, h, mi, some sec, some cap, tz⟩
                            | _ => none)
                           <|> (matchTzEnd r11).map fun tz =>
                             ⟨y, mo, dy, h, mi, some sec, none, tz⟩
                       | _ => none)
                      <|> (matchTzEnd r9).map fun tz => ⟨y, mo, dy, h, mi, none, none, tz⟩
                  | _ => none
              else none
            | [] => none
        | _ => none
    | _ => none

structure StdGroups where
  days : Option (List Char)
  hours : Option (List Char)
  minutes : Option (List Char)
  seconds : List Char
  microseconds : Option (List Char)
  deriving DecidableEq, Repr

/-- `-?\d+` (raw capture, including the sign character). -/
def matchSignedInt {α : Type} (s : List Char) (k : List Char → List Char → Option α) :
    Option α :=
  if s.head? = some '-' then
    match takeDigits1 s.tail with
    | some (d, r') => k ('-' :: d) r'
    | none => none
  else
    match takeDigits1 s with
    | some (d, r') => k d r'
    | none => none

/-- The lookahead `(?=\d+:\d+)`. -/
def lookDD (s : List Char) : Bool :=
  match takeDigits1 s with
  | some (_, ':' :: r2) => (takeDigits1 r2).isSome
  | _ => false

/-- `(?P<seconds>-?\d+)(?:\.(?P<microseconds>\d{1,6})\d{0,6})?$`. -/
def stdSec (days hours minutes : Option (List Char)) (s : List Char) : Option StdGroups :=
  matchSignedInt s fun scap r1 =>
    (match r1 with
     | '.' :: r2 =>
       match takeDigitsUpTo 6 r2 with
       | ([], _) => none
       | (cap, r3) =>
         let (_, r4) := takeDigitsUpTo 6 r3
         if atEnd r4 then some ⟨days, hours, minutes, scap, some cap⟩ else none
     | _ => none)
    <|> (if atEnd r1 then some ⟨days, hours, minutes, scap, none⟩ else none)

/-- `(?:(?P<minutes>-?\d+):)?` then the seconds part. -/
def stdMS (days hours : Option (List Char)) (s : List Char) : Option StdGroups :=
  (matchSignedInt s fun mcap r1 =>
    match r1 with
    | ':' :: r2 => stdSec days hours (some mcap) r2
    | _ => none)
  <|> stdSec days hours none s

/-- `((?:(?P<hours>-?\d+):)(?=\d+:\d+))?` then minutes and seconds. -/
def stdTail (days : Option (List Char)) (s : List Char) : Option StdGroups :=
  (matchSignedInt s fun hcap r1 =>
    match r1 with
    | ':' :: r2 => if lookDD r2 then stdMS days (some hcap) r2 else none
    | _ => none)
  <|> stdMS days none s

/-- `standard_duration_re` (lines 37-45); the leading group is
`(?:(?P<days>-?\d+) (days?, )?)?` — day count, a mandatory space, an optional
`day, ` / `days, ` word. -/
def standardDurationRe (s : List Char) : Option StdGroups :=
  (matchSignedInt s fun dcap r1 =>
    match r1 with
    | ' ' :: r2 =>
      (match r2 with
       | 'd' :: 'a' :: 'y' :: rest =>
         (match rest with
          | 's' :: ',' :: ' ' :: r3 => stdTail (some dcap) r3
          | _ => none)
         <|> (match rest with
          | ',' :: ' ' :: r3 => stdTail (some dcap) r3
          | _ => none)
       | _ => none)
      <|> stdTail (some dcap) r2
    | _ => none)
  <|> stdTail none s

structure IsoGroups where
  sign : List Char
  days : Option (List Char)
  hours : Option (List Char)
  minutes : Option (List Char)
  seconds : Option (List Char)
  deriving DecidableEq, Repr

/-- One ISO component `(?:(?P<g>\d+(.\d+)?)X)?` — note the unescaped `.` of
the source pattern matches any character except a newline. -/
def isoComp {α : Type} (letter : Char) (s : List Char)
    (k : Option (List Char) → List Char → Option α) : Option α :=
  (match takeDigits1 s with
   | some (d1, r1) =>
     (match r1 with
      | c :: r2 =>
        if c = '\n' then none
        else
          match takeDigits1 r2 with
          | some (d2, r3) =>
            match r3 with
            | c2 :: r4 => if c2 = letter then k (some (d1 ++ c :: d2)) r4 else none
            | [] => none
          | none => none
      | [] => none)
     <|> (match r1 with
      | c :: r2 => if c = letter then k (some d1) r2 else none
      | [] => none)
   | none => none)
  <|> k none s

/-- `iso8601_duration_re` (lines 48-58). -/
def iso8601DurationRe (s : List Char) : Option IsoGroups :=
  let (signCap, r0) :=
    match s with
    | '-' :: r => (['-'], r)
    | '+' :: r => (['+'], r)
    | _ => ([], s)
  match r0 with
  | 'P' :: r1 =>
    isoComp 'D' r1 fun days r2 =>
      (match r2 with
       | 'T' :: r3 =>
         isoComp 'H' r3 fun hours r4 =>
         isoComp 'M' r4 fun minutes r5 =>
         isoComp 'S' r5 fun seconds r6 =>
         if atEnd r6 then some ⟨signCap, days, hours, minutes, seconds⟩ else none
       | _ => none)
      <|> (if atEnd r2 then some ⟨signCap, days, none, none, none⟩ else none)
  | _ => none

/-! ### Errors, results, inputs, and the four parsers -/

/-- The exceptions observable from the module: the four classified pydantic
errors (subclasses of `ValueError`), plus the plain `ValueError` and
`OverflowError` that escape unclassified from CPython internals. -/
inductive PErr where
  | dateError
  | timeError
  | dateTimeError
  | durationError
  | valueError
  | overflowError
  deriving DecidableEq, Repr

/-- Outcome of a call: a value, a raised error, or divergence (the source's
`while` loop never terminating; see `unixLoopP_inf_none`). -/
inductive PRes (α : Type) where
  | ok (a : α)
  | err (e : PErr)
  | diverge
  deriving DecidableEq, Repr

/-- A scalar input: `str`, `bytes` (already decoded; the parsers decode with
`.decode()` before matching), `int` or `float`. -/
inductive Scalar where
  | str (s : String)
  | bytes (s : String)
  | int (n : ℤ)
  | float (f : PyFloat)
  deriving Repr

/-- The text used by the regex paths (reached only when `get_numeric` fails,
hence never for `int`/`float` inputs — those arms are dead). -/
def Scalar.text : Scalar → String
  | .str s => s
  | .bytes s => s
  | .int _ => ""
  | .float _ => ""

/-- `get_numeric` (lines 67-75): ints and floats pass through, text tries
`float()`; a `ValueError` means "not numeric" (`none`).  The `TypeError`
branch concerns input kinds outside `Scalar` and has no counterpart here. -/
def get_numeric : Scalar → Option PyFloat
  | .str s => pyFloatOfString s
  | .bytes s => pyFloatOfString s
  | .int n => some (.finite (.ofInt n))
  | .float f => some f

/-- `value > c` for a float and an integer `c` (comparisons with `nan` are
false). -/
def PyFloat.gtInt : PyFloat → ℤ → Bool
  | .finite q, c => q.gtInt c
  | .inf, _ => true
  | .ninf, _ => false
  | .nan, _ => false

/-- `value >= c` for a float and an integer `c`. -/
def PyFloat.geInt : PyFloat → ℤ → Bool
  | .finite q, c => q.geInt c
  | .inf, _ => true
  | .ninf, _ => false
  | .nan, _ => false

/-- `MS_WATERSHED = int(2e10)` (line 63). -/
def MS_WATERSHED : ℤ := 20000000000

/-- The `while seconds > MS_WATERSHED: seconds /= 1000` loop of
`from_unix_seconds` (lines 79-80), on a finite float (`/= 1000` on a decimal
fraction raises the denominator exponent by 3).  The recursion is driven by a
fuel argument so that the definition stays structurally recursive;
`unixDivLoop_eq` proves that the fuel chosen in `unixDivLoop` is always
sufficient, i.e. that the function satisfies exactly the recurrence of the
source's `while` loop. -/
def unixDivFuel : ℕ → Dec → Dec
  | 0, q => q
  | n + 1, q => if q.gtInt MS_WATERSHED then unixDivFuel n (q.divPow10 3) else q

/-- The loop of lines 79-80 (see `unixDivLoop_eq` for its defining
recurrence). -/
def unixDivLoop (q : Dec) : Dec := unixDivFuel q.num.natAbs q

/-- One iteration of the loop body on a general float (`inf / 1000 = inf`;
the guard is false for `-inf` and `nan`, so those never step). -/
def unixStep : PyFloat → PyFloat
  | .finite q => .finite (q.divPow10 3)
  | f => f

/-- Fuel-indexed small-step semantics of the same `while` loop for a general
float: `none` means the loop is still running after the given number of
guard checks. -/
def unixLoopP : ℕ → PyFloat → Option PyFloat
  | 0, _ => none
  | n + 1, f => if f.gtInt MS_WATERSHED then unixLoopP n (unixStep f) else some f

/-- Lines 81-82: `EPOCH + timedelta(seconds=seconds)`, tagged UTC by
`.replace(tzinfo=timezone.utc)`. -/
def epochPlusSeconds (q : Dec) : PRes PyDateTime :=
  match timedeltaOfComponents (.ofInt 0) (.ofInt 0) (.ofInt 0) q (.ofInt 0) with
  | none => .err .overflowError
  | some td =>
    match dtAdd EPOCH td with
    | none => .err .overflowError
    | some dt => .ok { dt with tzinfo := some 0 }

/-- `from_unix_seconds` (lines 78-82).  For `+inf` the loop never exits
(`inf > MS_WATERSHED` and `inf / 1000 = inf`), which the model records as
`.diverge`; for `-inf`/`nan` the loop guard is false and
`timedelta(seconds=...)` raises `OverflowError` / `ValueError`. -/
def from_unix_seconds : PyFloat → PRes PyDateTime
  | .finite q => epochPlusSeconds (unixDivLoop q)
  | .inf => .diverge
  | .ninf => .err .overflowError
  | .nan => .err .valueError

/-- Text path of `parse_date` (lines 105-112). -/
def parse_date_text (l : List Char) : PRes PyDate :=
  match dateRe l with
  | none => .err .dateError
  | some (y, mo, d) =>
    match mkDate y mo d with
    | some dd => .ok dd
    | none => .err .dateError

inductive DateInput where
  | date (d : PyDate)
  | datetime (dt : PyDateTime)
  | scalar (v : Scalar)
  deriving Repr

/-- Numeric path of `parse_date` (line 100): `from_unix_seconds(number).date()`. -/
def parse_date_num (f : PyFloat) : PRes PyDate :=
  match from_unix_seconds f with
  | .ok dt => .ok dt.toDate
  | .err e => .err e
  | .diverge => .diverge

/-- `parse_date` (lines 85-112).  A `datetime` is an instance of `date`, so
the pass-through check extracts its date part. -/
def parse_date : DateInput → PRes PyDate
  | .date d => .ok d
  | .datetime dt => .ok dt.toDate
  | .scalar v =>
    match get_numeric v with
    | some f => parse_date_num f
    | none => parse_date_text (Scalar.text v).data

/-- Numeric path of `parse_time` (lines 127-132):
`(datetime.min + timedelta(seconds=number)).time()` after the `>= 86400`
check; the construction/addition is outside any `change_exception` block, so
its failures escape as plain `OverflowError`/`ValueError`. -/
def parse_time_num (f : PyFloat) : PRes PyTime :=
  if f.geInt 86400 then .err .timeError
  else
    match f with
    | .finite q =>
      match timedeltaOfComponents (.ofInt 0) (.ofInt 0) (.ofInt 0) q (.ofInt 0) with
      | none => .err .overflowError
      | some td =>
        match dtAdd datetimeMin td with
        | none => .err .overflowError
        | some dt => .ok dt.toTime
    | .inf => .err .overflowError
    | .ninf => .err .overflowError
    | .nan => .err .valueError

/-- Text path of `parse_time` (lines 137-148). -/
def parse_time_text (l : List Char) : PRes PyTime :=
  match timeRe l with
  | none => .err .timeError
  | some g =>
    let us :=
      match g.microsecond with
      | some m => digitsToNat (ljust6 m)
      | none => 0
    match mkTime g.hour g.minute (g.second.getD 0) us with
    | some t => .ok t
    | none => .err .timeError

inductive TimeInput where
  | time (t : PyTime)
  | scalar (v : Scalar)
  deriving Repr

/-- `parse_time` (lines 115-148). -/
def parse_time : TimeInput → PRes PyTime
  | .time t => .ok t
  | .scalar v =>
    match get_numeric v with
    | some f => parse_time_num f
    | none => parse_time_text (Scalar.text v).data

/-- Lines 179-189: turn the raw `tzinfo` capture into a fixed offset.
`some none` = naive, `some (some o)` = fixed offset of `o` minutes; `none`
models the uncaught `ValueError` when `timezone(...)` rejects an offset of a
day or more.  The slices mirror `tzinfo_str[-2:]`, `tzinfo_str[1:3]` and the
`tzinfo_str[0] == '-'` test of the source. -/
def tzinfoOfGroup : Option (List Char) → Option (Option ℤ)
  | none => some none
  | some t =>
    if t = ['Z'] then some (some 0)
    else
      match (if 3 < t.length then pyIntOfString (t.drop (t.length - 2)) else some 0),
            pyIntOfString ((t.drop 1).take 2) with
      | some om, some oh =>
        let o1 := 60 * oh + om
        let o2 := if t.head? = some '-' then -o1 else o1
        (mkTimezone o2).map some
      | _, _ => none

/-- Text path of `parse_datetime` (lines 171-195). -/
def parse_datetime_text (l : List Char) : PRes PyDateTime :=
  match datetimeRe l with
  | none => .err .dateTimeError
  | some g =>
    let us :=
      match g.microsecond with
      | some m => digitsToNat (ljust6 m)
      | none => 0
    match tzinfoOfGroup g.tzinfo with
    | none => .err .valueError
    | some tz =>
      match mkDatetime g.year g.month g.day g.hour g.minute (g.second.getD 0) us tz with
      | some dt => .ok dt
      | none => .err .dateTimeError

inductive DtInput where
  | datetime (dt : PyDateTime)
  | scalar (v : Scalar)
  deriving Repr

/-- `parse_datetime` (lines 151-195). -/
def parse_datetime : DtInput → PRes PyDateTime
  | .datetime dt => .ok dt
  | .scalar v =>
    match get_numeric v with
    | some f => from_unix_seconds f
    | none => parse_datetime_text (Scalar.text v).data

/-- Lines 225-229: pad the microsecond capture with `ljust(6, '0')` and, when
the seconds capture is present (truthy) and starts with `'-'`, force the
microseconds negative by prefixing `'-'`. -/
def stdAdjustMicro (seconds : List Char) (micro : Option (List Char)) : Option (List Char) :=
  match micro.map ljust6 with
  | some m => if seconds ≠ [] && seconds.head? = some '-' then some ('-' :: m) else some m
  | none => none

/-- `float()` applied to a captured group; `none` is an uncaught
`ValueError` (possible only for ISO captures whose `.` matched a non-dot). -/
def floatOfCapture (l : List Char) : Option Dec :=
  match pyFloatOfString (String.mk l) with
  | some (.finite q) => some q
  | _ => none

/-- An absent group is dropped from `kw_`, so `timedelta` uses 0 for it. -/
def optCapture : Option (List Char) → Option Dec
  | none => some (.ofInt 0)
  | some l => floatOfCapture l

/-- Lines 223-232 for a standard-form match (the standard pattern has no
`sign` group, so `kw.pop('sign', '+')` yields `'+'` and `sign = 1`). -/
def composeStd (g : StdGroups) : PRes ℤ :=
  match optCapture g.days, optCapture g.hours, optCapture g.minutes,
      floatOfCapture g.seconds, optCapture (stdAdjustMicro g.seconds g.microseconds) with
  | some d, some h, some mi, some s, some us =>
    match timedeltaOfComponents d h mi s us with
    | none => .err .overflowError
    | some td =>
      match mkTimedelta (1 * td) with
      | none => .err .overflowError
      | some r => .ok r
  | _, _, _, _, _ => .err .valueError

/-- Lines 223-232 for an ISO-form match (`sign` capture `'-'` negates). -/
def composeIso (g : IsoGroups) : PRes ℤ :=
  let sign : ℤ := if g.sign = ['-'] then -1 else 1
  match optCapture g.days, optCapture g.hours, optCapture g.minutes, optCapture g.seconds with
  | some d, some h, some mi, some s =>
    match timedeltaOfComponents d h mi s (.ofInt 0) with
    | none => .err .overflowError
    | some td =>
      match mkTimedelta (sign * td) with
      | none => .err .overflowError
      | some r => .ok r
  | _, _, _, _ => .err .valueError

inductive DurInput where
  | timedelta (t : ℤ)
  | scalar (v : Scalar)
  deriving Repr

/-- `parse_duration` (lines 198-232): numeric input is stringified, then the
standard grammar is tried before the ISO grammar. -/
def parse_duration : DurInput → PRes ℤ
  | .timedelta t => .ok t
  | .scalar v =>
    let s : String :=
      match v with
      | .int n => pyStrOfInt n
      | .float f => pyStrOfFloat f
      | .str s => s
      | .bytes b => b
    match standardDurationRe s.data with
    | some g => composeStd g
    | none =>
      match iso8601DurationRe s.data with
      | some g => composeIso g
      | none => .err .durationError

/-! ### Supporting lemmas: characters, digit runs, list splitting -/

set_option maxHeartbeats 8000000 in
/-- The subtle core of Hinnant's `civil_from_days`: the year-of-era formula
lands in `[0, 399]` and its year start is at most `doe`, less than 366 days
below it. -/
theorem hinnant_yoe (doe : ℤ) (h1 : 0 ≤ doe) (h2 : doe ≤ 146096) :
    0 ≤ (doe - doe / 1460 + doe / 36524 - doe / 146096) / 365 ∧
    (doe - doe / 1460 + doe / 36524 - doe / 146096) / 365 ≤ 399 ∧
    365 * ((doe - doe / 1460 + doe / 36524 - doe / 146096) / 365) +
        ((doe - doe / 1460 + doe / 36524 - doe / 146096) / 365) / 4 -
        ((doe - doe / 1460 + doe / 36524 - doe / 146096) / 365) / 100 ≤ doe ∧
    doe - (365 * ((doe - doe / 1460 + doe / 36524 - doe / 146096) / 365) +
        ((doe - doe / 1460 + doe / 36524 - doe / 146096) / 365) / 4 -
        ((doe - doe / 1460 + doe / 36524 - doe / 146096) / 365) / 100) ≤ 365 := by
  set b := (doe - doe / 1460 + doe / 36524 - doe / 146096) / 365 with hb
  have l : 0 ≤ b := by omega
  have u : b ≤ 399 := by omega
  refine ⟨l, u, ?_⟩
  interval_cases b <;> omega

set_option maxHeartbeats 4000000 in
theorem civilFromDays_aux (z era doe yoe doy mp : ℤ)
    (hera : era = (z + 719468) / 146097)
    (hdoe : doe = z + 719468 - era * 146097)
    (hyoe : yoe = (doe - doe / 1460 + doe / 36524 - doe / 146096) / 365)
    (hdoy : doy = doe - (365 * yoe + yoe / 4 - yoe / 100))
    (hmp : mp = (5 * doy + 2) / 153)
    (h1 : -719162 ≤ z) (h2 : z ≤ 2932896)
    (hy1 : 0 ≤ yoe) (hy2 : yoe ≤ 399) (hd1 : 0 ≤ doy) (hd2 : doy ≤ 365) :
    1 ≤ (if (if mp < 10 then mp + 3 else mp - 9) ≤ 2 then yoe + era * 400 + 1 else yoe + era * 400) ∧
    (if (if mp < 10 then mp + 3 else mp - 9) ≤ 2 then yoe + era * 400 + 1 else yoe + era * 400) ≤ 9999 ∧
    1 ≤ (if mp < 10 then mp + 3 else mp - 9) ∧ (if mp < 10 then mp + 3 else mp - 9) ≤ 12 ∧
    1 ≤ doy - (153 * mp + 2) / 5 + 1 ∧ doy - (153 * mp + 2) / 5 + 1 ≤ 31 ∧
    daysFromCivil
      (if (if mp < 10 then mp + 3 else mp - 9) ≤ 2 then yoe + era * 400 + 1 else yoe + era * 400)
      (if mp < 10 then mp + 3 else mp - 9)
      (doy - (153 * mp + 2) / 5 + 1) = z := by
  have hk : (yoe + era * 400) / 400 = era := by omega
  unfold daysFromCivil
  simp only []
  split_ifs
  all_goals
    first
    | omega
    | · try rw [show yoe + era * 400 + 1 - 1 = yoe + era * 400 from by ring]
        rw [hk]
        try rw [show yoe + era * 400 - era * 400 = yoe from by ring]
        try rw [show (153 : ℤ) * (mp + 3 - 3) + 2 = 153 * mp + 2 from by ring]
        try rw [show (153 : ℤ) * (mp - 9 + 9) + 2 = 153 * mp + 2 from by ring]
        omega

set_option maxHeartbeats 4000000 in
/-- On the representable range, `civilFromDays` produces a valid civil date
and is a right inverse of `daysFromCivil`. -/
theorem civilFromDays_spec (z : ℤ) (h1 : minDay ≤ z) (h2 : z ≤ maxDay) :
    1 ≤ (civilFromDays z).1 ∧ (civilFromDays z).1 ≤ 9999 ∧
    1 ≤ (civilFromDays z).2.1 ∧ (civilFromDays z).2.1 ≤ 12 ∧
    1 ≤ (civilFromDays z).2.2 ∧ (civilFromDays z).2.2 ≤ 31 ∧
    daysFromCivil (civilFromDays z).1 (civilFromDays z).2.1 (civilFromDays z).2.2 = z := by
  rw [minDay] at h1; rw [maxDay] at h2
  have key := hinnant_yoe (z + 719468 - ((z + 719468) / 146097) * 146097) (by omega) (by omega)
  exact civilFromDays_aux z _ _ _ _ _ rfl rfl rfl rfl rfl h1 h2 key.1 key.2.1
    (by omega) (by omega)

/-- While the guard holds, the floor of the value exceeds the watershed. -/
theorem gtInt_floor_ge (q : Dec) (h : q.gtInt MS_WATERSHED = true) :
    20000000000 ≤ q.num.toNat / 10 ^ q.exp := by
  have h1 : MS_WATERSHED * (10 : ℤ) ^ q.exp < q.num := by
    simpa [Dec.gtInt, decide_eq_true_eq] using h
  have hw : MS_WATERSHED = 20000000000 := rfl
  have hp : (0 : ℤ) < (10 : ℤ) ^ q.exp := by positivity
  have h2 : (20000000000 : ℤ) * 10 ^ q.exp ≤ q.num := by rw [hw] at h1; omega
  have h3 : 20000000000 * 10 ^ q.exp ≤ q.num.toNat := by
    have hnn : (0 : ℤ) ≤ q.num := by nlinarith
    have : ((20000000000 * 10 ^ q.exp : ℕ) : ℤ) ≤ (q.num.toNat : ℤ) := by
      rw [Int.toNat_of_nonneg hnn]; push_cast; exact h2
    exact_mod_cast this
  exact (Nat.le_div_iff_mul_le (Nat.pos_pow_of_pos _ (by norm_num))).mpr h3

/-- The floor measure divides by 1000 at each loop step. -/
theorem floor_divPow10 (q : Dec) :
    (q.divPow10 3).num.toNat / 10 ^ (q.divPow10 3).exp = q.num.toNat / 10 ^ q.exp / 1000 := by
  show q.num.toNat / 10 ^ (q.exp + 3) = q.num.toNat / 10 ^ q.exp / 1000
  rw [pow_add, Nat.div_div_eq_div_mul]
  norm_num

/-- Any two sufficient fuels give the same result. -/
theorem unixDivFuel_congr :
    ∀ n m (q : Dec), q.num.toNat / 10 ^ q.exp ≤ n → q.num.toNat / 10 ^ q.exp ≤ m →
      unixDivFuel n q = unixDivFuel m q := by
  intro n
  induction n with
  | zero =>
    intro m q hn _
    have hg : q.gtInt MS_WATERSHED = false := by
      cases hgt : q.gtInt MS_WATERSHED with
      | false => rfl
      | true => exact absurd (gtInt_floor_ge q hgt) (by omega)
    cases m with
    | zero => rfl
    | succ m' => simp [unixDivFuel, hg]
  | succ n' ih =>
    intro m q hn hm
    cases hgt : q.gtInt MS_WATERSHED with
    | false =>
      cases m with
      | zero => simp [unixDivFuel, hgt]
      | succ m' => simp [unixDivFuel, hgt]
    | true =>
      have hge := gtInt_floor_ge q hgt
      cases m with
      | zero => omega
      | succ m' =>
        simp only [unixDivFuel, hgt, if_true]
        have hstep := floor_divPow10 q
        have h1 : (q.divPow10 3).num.toNat / 10 ^ (q.divPow10 3).exp ≤ n' := by
          rw [hstep]; omega
        have h2 : (q.divPow10 3).num.toNat / 10 ^ (q.divPow10 3).exp ≤ m' := by
          rw [hstep]; omega
        exact ih m' _ h1 h2

/-- `unixDivLoop` satisfies exactly the recurrence of the source's `while`
loop: the fuel `q.num.natAbs` never runs out. -/
theorem unixDivLoop_eq (q : Dec) :
    unixDivLoop q = if q.gtInt MS_WATERSHED then unixDivLoop (q.divPow10 3) else q := by
  have hfloor : ∀ d : Dec, d.num.toNat / 10 ^ d.exp ≤ d.num.natAbs :=
    fun d => le_trans (Nat.div_le_self _ _) (by omega)
  cases hgt : q.gtInt MS_WATERSHED with
  | false =>
    show unixDivFuel q.num.natAbs q = q
    cases hq : q.num.natAbs with
    | zero => rfl
    | succ k => simp [unixDivFuel, hgt]
  | true =>
    show unixDivFuel q.num.natAbs q = unixDivLoop (q.divPow10 3)
    have hge := gtInt_floor_ge q hgt
    have hna : q.num.toNat / 10 ^ q.exp ≤ q.num.natAbs := hfloor q
    cases hq : q.num.natAbs with
    | zero => omega
    | succ k =>
      simp only [unixDivFuel, hgt, if_true]
      apply unixDivFuel_congr
      · rw [floor_divPow10]; omega
      · exact hfloor _

theorem isDigit_toNat {c : Char} (h : c.isDigit = true) : 48 ≤ c.toNat ∧ c.toNat ≤ 57 := by
  simp only [Char.isDigit, Bool.and_eq_true, decide_eq_true_eq] at h
  obtain ⟨h1, h2⟩ := h
  exact ⟨h1, h2⟩

theorem digitVal_lt {c : Char} (h : c.isDigit = true) : digitVal c < 10 := by
  have := isDigit_toNat h
  simp only [digitVal]
  omega

theorem digitsToNat_lt (l : List Char) (hd : ∀ c ∈ l, c.isDigit = true) :
    digitsToNat l < 10 ^ l.length := by
  suffices h : ∀ a : ℕ, l.foldl (fun a c => 10 * a + digitVal c) a < (a + 1) * 10 ^ l.length by
    have := h 0
    simpa [digitsToNat] using this
  induction l with
  | nil => intro a; simp
  | cons c r ih =>
    intro a
    have h1 : digitVal c < 10 := digitVal_lt (hd c (List.mem_cons_self c r))
    calc (c :: r).foldl (fun a c => 10 * a + digitVal c) a
        = r.foldl (fun a c => 10 * a + digitVal c) (10 * a + digitVal c) := rfl
    _ < (10 * a + digitVal c + 1) * 10 ^ r.length :=
        ih (fun x hx => hd x (List.mem_cons_of_mem c hx)) _
    _ ≤ (a + 1) * 10 ^ (c :: r).length := by
        simp only [List.length_cons, pow_succ]
        nlinarith [pow_pos (show (0:ℕ) < 10 by norm_num) r.length]

theorem takeWhile_digit_append (a rest : List Char) (ha : ∀ c ∈ a, c.isDigit = true)
    (hr : headNotDigit rest) :
    (a ++ rest).takeWhile Char.isDigit = a ∧ (a ++ rest).dropWhile Char.isDigit = rest := by
  induction a with
  | nil =>
    cases rest with
    | nil => exact ⟨rfl, rfl⟩
    | cons c r =>
      have := hr c rfl
      constructor
      · simp [List.takeWhile_cons, this]
      · simp [List.dropWhile_cons, this]
  | cons c a' ih =>
    have hc := ha c (List.mem_cons_self c a')
    have := ih (fun x hx => ha x (List.mem_cons_of_mem c hx))
    constructor
    · simp [List.takeWhile_cons, hc, this.1]
    · simp [List.dropWhile_cons, hc, this.2]

theorem takeDigits1_spec (a rest : List Char) (hne : a ≠ []) (ha : ∀ c ∈ a, c.isDigit = true)
    (hr : headNotDigit rest) : takeDigits1 (a ++ rest) = some (a, rest) := by
  cases a with
  | nil => exact absurd rfl hne
  | cons c a' =>
    have hc := ha c (List.mem_cons_self c a')
    have hsplit := takeWhile_digit_append a' rest (fun x hx => ha x (List.mem_cons_of_mem c hx)) hr
    simp [takeDigits1, hc, hsplit.1, hsplit.2]

theorem takeDigitsUpTo_spec :
    ∀ (n : ℕ) (a rest : List Char), (∀ c ∈ a, c.isDigit = true) → headNotDigit rest →
      takeDigitsUpTo n (a ++ rest) = (a.take n, a.drop n ++ rest) := by
  intro n
  induction n with
  | zero => intro a rest _ _; simp [takeDigitsUpTo]
  | succ m ih =>
    intro a rest ha hr
    cases a with
    | nil =>
      cases rest with
      | nil => simp [takeDigitsUpTo]
      | cons c r =>
        have := hr c rfl
        simp [takeDigitsUpTo, this]
    | cons c a' =>
      have hc := ha c (List.mem_cons_self c a')
      have := ih a' rest (fun x hx => ha x (List.mem_cons_of_mem c hx)) hr
      simp [takeDigitsUpTo, hc, this]

theorem ljust6_length (l : List Char) : (ljust6 l).length = max 6 l.length := by
  simp [ljust6]
  omega

theorem ljust6_digits (l : List Char) (h : ∀ c ∈ l, c.isDigit = true) :
    ∀ c ∈ ljust6 l, c.isDigit = true := by
  intro c hc
  rcases List.mem_append.mp hc with h1 | h2
  · exact h c h1
  · have := List.eq_of_mem_replicate h2
    subst this
    decide

theorem digitsToNat_le_999999 (l : List Char) (h : ∀ c ∈ l, c.isDigit = true)
    (hlen : l.length ≤ 6) : digitsToNat l ≤ 999999 := by
  have := digitsToNat_lt l h
  have h2 : (10 : ℕ) ^ l.length ≤ 10 ^ 6 := Nat.pow_le_pow_right (by norm_num) hlen
  omega

/-! ### Claim C10: pass-through of already-typed inputs -/

/-- C10: each parser returns an already-typed input unchanged: `parse_time` a
time, `parse_datetime` a datetime, `parse_duration` a timedelta, and
`parse_date` a date — except that a datetime given to `parse_date` yields
exactly its date component. -/
theorem claim_C10_passthrough :
    (∀ d : PyDate, parse_date (.date d) = .ok d) ∧
    (∀ dt : PyDateTime, parse_date (.datetime dt) = .ok dt.toDate) ∧
    (∀ t : PyTime, parse_time (.time t) = .ok t) ∧
    (∀ dt : PyDateTime, parse_datetime (.datetime dt) = .ok dt) ∧
    (∀ td : ℤ, parse_duration (.timedelta td) = .ok td) :=
  ⟨fun _ => rfl, fun _ => rfl, fun _ => rfl, fun _ => rfl, fun _ => rfl⟩

/-! ### Claim C1: `time_re` has no end anchor, so trailing text is accepted -/

/-- C1 (code bug): contrary to the docstring of `parse_time` ("Raise
ValueError if the input isn't well formatted, in particular if it contains an
offset"), `time_re` (line 26-28) carries no `$` anchor, so an input with a
valid `H:M:S` prefix and a trailing timezone suffix is parsed from its prefix
instead of raising `TimeError`. -/
theorem claim_C1_trailing_accepted :
    parse_time (.scalar (.str "10:05:00+05:00")) = .ok ⟨10, 5, 0, 0⟩ ∧
    parse_time (.scalar (.str "10:05:00trailing")) = .ok ⟨10, 5, 0, 0⟩ ∧
    parse_time (.scalar (.str "10:05:00")) = .ok ⟨10, 5, 0, 0⟩ := by
  refine ⟨by decide, by decide, by decide⟩

/-! ### Claim C2: the two duration grammars on "1 day + 1 second" -/

/-- C2 counterexample: `parse_duration("1d,00:00:01")` raises
`DurationError` — the standard grammar requires a space after the day count
(`(?P<days>-?\d+) (days?, )?`), so `"1d,"` matches neither grammar. -/
theorem claim_C2_counterexample :
    parse_duration (.scalar (.str "1d,00:00:01")) = .err .durationError := by decide

/-- C2 (amended): with the day count written as the grammar demands
(`"1 day, 00:00:01"`), the standard form and the ISO form `"P1DT1S"` both
succeed and return the same duration, 1 day + 1 second = 86401000000 µs. -/
theorem claim_C2_duration_grammars_agree :
    parse_duration (.scalar (.str "1 day, 00:00:01")) = .ok (86400000000 + 1000000) ∧
    parse_duration (.scalar (.str "P1DT1S")) = .ok (86400000000 + 1000000) := by
  refine ⟨by decide, by decide⟩

/-! ### Claim C5: termination of the four parsers -/

/-- The `while` loop of `from_unix_seconds` never exits on `float('inf')`:
`inf > MS_WATERSHED` holds forever because `inf / 1000 = inf`. -/
theorem unixLoopP_inf_none : ∀ n, unixLoopP n PyFloat.inf = none := by
  intro n
  induction n with
  | zero => rfl
  | succ k ih => simpa [unixLoopP, PyFloat.gtInt, unixStep] using ih

theorem unixLoopP_finite_aux :
    ∀ (k : ℕ) (d : Dec), d.num.toNat / 10 ^ d.exp ≤ k →
      ∃ n, unixLoopP n (.finite d) = some (.finite (unixDivLoop d)) := by
  intro k
  induction k with
  | zero =>
    intro d hk
    have hg : d.gtInt MS_WATERSHED = false := by
      cases hgt : d.gtInt MS_WATERSHED with
      | false => rfl
      | true => exact absurd (gtInt_floor_ge d hgt) (by omega)
    refine ⟨1, ?_⟩
    rw [unixDivLoop_eq, hg]
    simp [unixLoopP, PyFloat.gtInt, hg]
  | succ k ih =>
    intro d hk
    cases hgt : d.gtInt MS_WATERSHED with
    | false =>
      refine ⟨1, ?_⟩
      rw [unixDivLoop_eq, hgt]
      simp [unixLoopP, PyFloat.gtInt, hgt]
    | true =>
      have hge := gtInt_floor_ge d hgt
      have hstep := floor_divPow10 d
      obtain ⟨n, hn⟩ := ih (d.divPow10 3) (by rw [hstep]; omega)
      refine ⟨n + 1, ?_⟩
      rw [unixDivLoop_eq, hgt]
      simpa [unixLoopP, PyFloat.gtInt, hgt, unixStep] using hn

/-- On every finite float the loop terminates (reaching `unixDivLoop`'s
value after finitely many steps). -/
theorem unixLoopP_finite_reaches (d : Dec) :
    ∃ n, unixLoopP n (.finite d) = some (.finite (unixDivLoop d)) :=
  unixLoopP_finite_aux (d.num.toNat / 10 ^ d.exp) d le_rfl

/-- C5 (code bug): the claim that every call terminates is violated by
`float('inf')` (which `get_numeric` accepts as numeric, also via the text
`"inf"`): in `from_unix_seconds` the loop `while seconds > MS_WATERSHED:
seconds /= 1000` never exits, since `inf > 2e10` and `inf / 1000 = inf`.
So `parse_date` and `parse_datetime` diverge on it (first conjuncts: no
amount of fuel makes the small-step loop exit).  On every finite float the
loop does terminate, and `parse_time` / `parse_duration` terminate even on
`inf` (the former errors before the loop, the latter stringifies). -/
theorem claim_C5_termination :
    (∀ n, unixLoopP n PyFloat.inf = none) ∧
    parse_date (.scalar (.float .inf)) = .diverge ∧
    parse_datetime (.scalar (.float .inf)) = .diverge ∧
    parse_date (.scalar (.str "inf")) = .diverge ∧
    (∀ d : Dec, ∃ n, unixLoopP n (.finite d) = some (.finite (unixDivLoop d))) ∧
    parse_time (.scalar (.float .inf)) = .err .timeError ∧
    parse_duration (.scalar (.float .inf)) = .err .durationError :=
  ⟨unixLoopP_inf_none, by decide, by decide, by decide, unixLoopP_finite_reaches,
    by decide, by decide⟩

/-! ### Supporting lemmas: decimal fractions vs their rational values -/

theorem Dec.geInt_iff (a : Dec) (c : ℤ) : a.geInt c = true ↔ (c : ℚ) ≤ a.toQ := by
  have hp : (0 : ℚ) < 10 ^ a.exp := by positivity
  rw [Dec.geInt, Dec.toQ, le_div_iff₀ hp, decide_eq_true_eq]
  constructor
  · intro h
    exact_mod_cast h
  · intro h
    exact_mod_cast h

theorem Dec.gtInt_iff (a : Dec) (c : ℤ) : a.gtInt c = true ↔ (c : ℚ) < a.toQ := by
  have hp : (0 : ℚ) < 10 ^ a.exp := by positivity
  rw [Dec.gtInt, Dec.toQ, lt_div_iff₀ hp, decide_eq_true_eq]
  constructor
  · intro h
    exact_mod_cast h
  · intro h
    exact_mod_cast h

theorem Dec.floor_eq (a : Dec) : a.floor = ⌊a.toQ⌋ := by
  rw [Dec.floor, Dec.toQ]
  rw [show ((10 : ℚ) ^ a.exp) = ((10 ^ a.exp : ℕ) : ℚ) by push_cast; ring]
  rw [Rat.floor_intCast_div_natCast]
  norm_cast

theorem Dec.roundHalfEven_exp0 (m : ℤ) : Dec.roundHalfEven ⟨m, 0⟩ = m := by
  simp [Dec.roundHalfEven, Dec.floor]

/-- The rounding never exceeds an integer strict upper bound of the value. -/
theorem Dec.roundHalfEven_le {d : Dec} {N : ℤ} (h : d.toQ < N) : d.roundHalfEven ≤ N := by
  have hf : d.floor = ⌊d.toQ⌋ := Dec.floor_eq d
  have h1 : ⌊d.toQ⌋ < N := Int.floor_lt.mpr (by exact_mod_cast h)
  have h2 : d.roundHalfEven ≤ d.floor + 1 := by
    rw [Dec.roundHalfEven]
    split_ifs <;> omega
  omega

theorem Dec.toQ_ofInt (n : ℤ) : (Dec.ofInt n).toQ = (n : ℚ) := by
  simp [Dec.ofInt, Dec.toQ]

theorem Dec.toQ_mulPow10 (a : Dec) (k : ℕ) : (a.mulPow10 k).toQ = a.toQ * 10 ^ k := by
  simp only [Dec.mulPow10, Dec.toQ]
  push_cast
  ring

/-- `timedelta(seconds=q)`: the zero components vanish, so the rounded total
is that of `q` scaled to microseconds. -/
theorem timedelta_only_seconds (d : Dec) :
    timedeltaOfComponents (.ofInt 0) (.ofInt 0) (.ofInt 0) d (.ofInt 0)
      = mkTimedelta (Dec.roundHalfEven (d.mulPow10 6)) := by
  show mkTimedelta _ = _
  congr 1
  congr 1
  simp [Dec.add, Dec.mulInt, Dec.mulPow10, Dec.ofInt]

/-- Reading back a datetime produced by `dtFromMicros`: its wall-clock total
is the input and it is naive. -/
theorem dtFromMicros_total (t : ℤ) (r : PyDateTime) (h : dtFromMicros t = some r) :
    dtTotalMicros r = t ∧ r.tzinfo = none := by
  rw [dtFromMicros] at h
  simp only [] at h
  split at h
  case isFalse => exact absurd h (by simp)
  case isTrue hc =>
    obtain ⟨hy1, hy2, hm1, hm2, hd1, hd2, hrt⟩ := civilFromDays_spec _ hc.1 hc.2
    have hr := Option.some.inj h
    subst hr
    have hmod1 : 0 ≤ t % 86400000000 := Int.emod_nonneg t (by norm_num)
    have hmod2 : t % 86400000000 < 86400000000 := Int.emod_lt_of_pos t (by norm_num)
    have hrem : (((t % 86400000000).toNat : ℤ)) = t % 86400000000 :=
      Int.toNat_of_nonneg hmod1
    constructor
    · rw [dtTotalMicros]
      simp only []
      rw [Int.toNat_of_nonneg (by omega), Int.toNat_of_nonneg (by omega),
        Int.toNat_of_nonneg (by omega), hrt]
      have hdiv : 86400000000 * (t / 86400000000) + t % 86400000000 = t :=
        Int.ediv_add_emod t 86400000000
      push_cast
      rw [hrem]
      omega
    · rfl

theorem dtTotalMicros_EPOCH : dtTotalMicros EPOCH = 0 := by decide

theorem dtTotalMicros_setTz (r : PyDateTime) (tz : Option ℤ) :
    dtTotalMicros { r with tzinfo := tz } = dtTotalMicros r := rfl

/-! ### Claim C4: unix-time interpretation and the watershed -/

theorem gtInt_watershed_false {d : Dec} (h : d.toQ ≤ 20000000000) :
    d.gtInt MS_WATERSHED = false := by
  cases hgt : d.gtInt MS_WATERSHED with
  | false => rfl
  | true =>
    have h2 := (Dec.gtInt_iff d MS_WATERSHED).mp hgt
    rw [show ((MS_WATERSHED : ℤ) : ℚ) = (20000000000 : ℚ) by norm_num [MS_WATERSHED]] at h2
    linarith

theorem epochPlusSeconds_ok (q : Dec) (dt : PyDateTime) (h : epochPlusSeconds q = .ok dt) :
    dt.tzinfo = some 0 ∧ dtTotalMicros dt = Dec.roundHalfEven (q.mulPow10 6) := by
  rw [epochPlusSeconds, timedelta_only_seconds] at h
  split at h
  case h_1 => exact absurd h (by simp)
  case h_2 td heq =>
    have htd : td = Dec.roundHalfEven (q.mulPow10 6) := by
      rw [mkTimedelta] at heq
      split at heq
      · exact (Option.some.inj heq).symm
      · exact absurd heq (by simp)
    split at h
    case h_1 => exact absurd h (by simp)
    case h_2 r heq2 =>
      rw [dtAdd, dtTotalMicros_EPOCH, zero_add] at heq2
      obtain ⟨r0, hr0, hr⟩ := Option.map_eq_some'.mp heq2
      have htot := dtFromMicros_total _ _ hr0
      have hdt := PRes.ok.inj h
      subst hdt
      subst hr
      refine ⟨rfl, ?_⟩
      rw [dtTotalMicros_setTz, dtTotalMicros_setTz, htot.1, htd]

/-- C4 counterexample: for a hugely negative timestamp the claimed result
"epoch plus that many seconds" does not exist — the datetime construction
overflows and `parse_date(-10^11)` raises an unclassified `OverflowError`
(the instant would fall in year 1199 BC, outside `datetime`'s years
1..9999). -/
theorem claim_C4_counterexample :
    parse_date (.scalar (.int (-100000000000))) = .err .overflowError := by decide

/-- C4 (amended): the unix-time interpretation divides by 1000 while the
value exceeds `MS_WATERSHED = 2*10^10` and leaves any value at most the
watershed (in particular every negative value) unchanged; the result is then
the epoch plus that many seconds tagged UTC — stated as: any successful
result is UTC-tagged with wall-clock total (microseconds since the epoch)
equal to the seconds value scaled to microseconds — whenever that instant is
representable (otherwise the construction overflows, see the
counterexample).  Consequently `parse_date(10^10)` and `parse_date(10^13)`
agree (on 2286-11-20), and `parse_date(10^9)` equals
`parse_date("2001-09-09")`. -/
theorem claim_C4_unix_watershed :
    (∀ d : Dec, d.toQ ≤ 20000000000 → unixDivLoop d = d) ∧
    (∀ d : Dec, (20000000000 : ℚ) < d.toQ → unixDivLoop d = unixDivLoop (d.divPow10 3)) ∧
    (∀ (d : Dec) (dt : PyDateTime), d.toQ ≤ 20000000000 →
      from_unix_seconds (.finite d) = .ok dt →
      dt.tzinfo = some 0 ∧ dtTotalMicros dt = Dec.roundHalfEven (d.mulPow10 6)) ∧
    parse_date (.scalar (.float (.finite ⟨10000000000, 0⟩))) =
      parse_date (.scalar (.float (.finite ⟨10000000000000, 0⟩))) ∧
    parse_date (.scalar (.float (.finite ⟨10000000000000, 0⟩))) = .ok ⟨2286, 11, 20⟩ ∧
    parse_date (.scalar (.int 1000000000)) = parse_date (.scalar (.str "2001-09-09")) := by
  refine ⟨?_, ?_, ?_, by decide, by decide, by decide⟩
  · intro d h
    rw [unixDivLoop_eq, gtInt_watershed_false h]
    simp
  · intro d h
    have hgt : d.gtInt MS_WATERSHED = true := by
      rw [Dec.gtInt_iff]
      rw [show ((MS_WATERSHED : ℤ) : ℚ) = (20000000000 : ℚ) by norm_num [MS_WATERSHED]]
      exact h
    rw [unixDivLoop_eq, hgt]
    simp
  · intro d dt hle hok
    have hloop : unixDivLoop d = d := by
      rw [unixDivLoop_eq, gtInt_watershed_false hle]
      simp
    rw [show from_unix_seconds (.finite d) = epochPlusSeconds (unixDivLoop d) from rfl,
      hloop] at hok
    exact epochPlusSeconds_ok d dt hok

/-- Witness for C4: the hypothesis-bearing conjuncts applied at concrete
inputs 0 and 3*10^10. -/
theorem claim_C4_unix_watershed_witness :
    unixDivLoop ⟨0, 0⟩ = ⟨0, 0⟩ ∧
    unixDivLoop ⟨30000000000, 0⟩ = unixDivLoop (Dec.divPow10 ⟨30000000000, 0⟩ 3) ∧
    ((⟨1970, 1, 1, 0, 0, 0, 0, some 0⟩ : PyDateTime).tzinfo = some 0 ∧
      dtTotalMicros ⟨1970, 1, 1, 0, 0, 0, 0, some 0⟩ =
        Dec.roundHalfEven (Dec.mulPow10 ⟨0, 0⟩ 6)) :=
  ⟨claim_C4_unix_watershed.1 ⟨0, 0⟩ (by norm_num [Dec.toQ]),
   claim_C4_unix_watershed.2.1 ⟨30000000000, 0⟩ (by norm_num [Dec.toQ]),
   claim_C4_unix_watershed.2.2.1 ⟨0, 0⟩ ⟨1970, 1, 1, 0, 0, 0, 0, some 0⟩
     (by norm_num [Dec.toQ]) (by decide)⟩

/-! ### Claim C3: the numeric path of `parse_time` -/

theorem dtTotalMicros_min : dtTotalMicros datetimeMin = -62135596800000000 := by decide

theorem dtAddMin_neg (t : ℤ) (h : t < 0) : dtAdd datetimeMin t = none := by
  have hdiv : (dtTotalMicros datetimeMin + t) / 86400000000 = -719162 + t / 86400000000 := by
    rw [dtTotalMicros_min]
    rw [show (-62135596800000000 : ℤ) + t = t + 86400000000 * (-719162) by ring,
      Int.add_mul_ediv_left t (-719162) (by norm_num)]
    ring
  have hneg : t / 86400000000 < 0 := Int.ediv_neg' h (by norm_num)
  rw [dtAdd, dtFromMicros]
  simp only []
  rw [hdiv, if_neg]
  · rfl
  · rw [minDay]
    omega

theorem dtAddMin_time (t : ℤ) (h0 : 0 ≤ t) (h1 : t ≤ 86400000000) :
    ∃ r, dtAdd datetimeMin t = some r ∧ r.toTime = timeOfDayMicros t := by
  have hD : (0 : ℤ) < 86400000000 := by norm_num
  have hdiv : (dtTotalMicros datetimeMin + t) / 86400000000 = -719162 + t / 86400000000 := by
    rw [dtTotalMicros_min]
    rw [show (-62135596800000000 : ℤ) + t = t + 86400000000 * (-719162) by ring,
      Int.add_mul_ediv_left t (-719162) (by norm_num)]
    ring
  have hmod : (dtTotalMicros datetimeMin + t) % 86400000000 = t % 86400000000 := by
    rw [dtTotalMicros_min]
    rw [show (-62135596800000000 : ℤ) + t = t + 86400000000 * (-719162) by ring,
      Int.add_mul_emod_self_left]
  have ht1 : 0 ≤ t / 86400000000 := Int.ediv_nonneg h0 (le_of_lt hD)
  have ht2 : t / 86400000000 ≤ 1 := by
    have := Int.ediv_le_ediv hD h1
    simpa using this
  rw [dtAdd, dtFromMicros]
  simp only []
  rw [hdiv, hmod, if_pos (by rw [minDay, maxDay]; omega)]
  exact ⟨_, rfl, rfl⟩

/-- C3 counterexample: `parse_time(-1)` raises an unclassified
`OverflowError` (`datetime.min + timedelta(seconds=-1)` underflows, on line
132, outside any `change_exception` block), not the `TimeError` the claim
asserts for every out-of-range numeric input. -/
theorem claim_C3_counterexample :
    parse_time (.scalar (.int (-1))) = .err .overflowError := by decide

/-- C3 (amended): on a numeric input, `parse_time` fails with `TimeError`
exactly when the value is at least 86400; below that it scales the value to
microseconds with `timedelta`'s half-even rounding, fails with an
unclassified `OverflowError` when the rounded count is negative, and
otherwise returns the time-of-day that many microseconds after midnight.  In
particular `parse_time(86400)` fails with `TimeError` and
`parse_time(86399.999999)` succeeds (as 23:59:59.999999). -/
theorem claim_C3_time_numeric_range :
    (∀ d : Dec, parse_time (.scalar (.float (.finite d))) =
      (if (86400 : ℚ) ≤ d.toQ then .err .timeError
       else if Dec.roundHalfEven (d.mulPow10 6) < 0 then .err .overflowError
       else .ok (timeOfDayMicros (Dec.roundHalfEven (d.mulPow10 6))))) ∧
    (∀ n : ℤ, parse_time (.scalar (.int n)) =
      (if (86400 : ℤ) ≤ n then .err .timeError
       else if n < 0 then .err .overflowError
       else .ok (timeOfDayMicros (n * 1000000)))) ∧
    parse_time (.scalar (.int 86400)) = .err .timeError ∧
    parse_time (.scalar (.float (.finite ⟨86399999999, 6⟩))) = .ok ⟨23, 59, 59, 999999⟩ := by
  have main : ∀ d : Dec, parse_time_num (.finite d) =
      (if (86400 : ℚ) ≤ d.toQ then .err .timeError
       else if Dec.roundHalfEven (d.mulPow10 6) < 0 then .err .overflowError
       else .ok (timeOfDayMicros (Dec.roundHalfEven (d.mulPow10 6)))) := by
    intro d
    by_cases hge : (86400 : ℚ) ≤ d.toQ
    · have hb : PyFloat.geInt (.finite d) 86400 = true := by
        show d.geInt 86400 = true
        rw [Dec.geInt_iff]
        exact_mod_cast hge
      simp [parse_time_num, hb, hge]
    · have hb : PyFloat.geInt (.finite d) 86400 = false := by
        show d.geInt 86400 = false
        rw [Bool.eq_false_iff, Ne, Dec.geInt_iff]
        intro hc
        exact hge (by exact_mod_cast hc)
      have hlt : d.toQ < 86400 := not_le.mp hge
      have htle : Dec.roundHalfEven (d.mulPow10 6) ≤ 86400000000 := by
        apply Dec.roundHalfEven_le
        rw [Dec.toQ_mulPow10]
        calc d.toQ * 10 ^ 6 < 86400 * 10 ^ 6 := by
              have := mul_lt_mul_of_pos_right hlt (show (0:ℚ) < 10 ^ 6 by norm_num)
              linarith
        _ = ((86400000000 : ℤ) : ℚ) := by norm_num
      simp only [parse_time_num, hb, Bool.false_eq_true, if_false]
      rw [timedelta_only_seconds, mkTimedelta]
      set t := Dec.roundHalfEven (d.mulPow10 6) with ht
      by_cases htd : TDMIN ≤ t ∧ t ≤ TDMAX
      · rw [if_pos htd]
        show (match dtAdd datetimeMin t with
          | none => PRes.err .overflowError
          | some dt => .ok dt.toTime) = _
        by_cases hneg : t < 0
        · rw [dtAddMin_neg t hneg, if_neg hge, if_pos hneg]
        · push_neg at hneg
          obtain ⟨r, hr, hrt⟩ := dtAddMin_time t hneg htle
          rw [hr, if_neg hge, if_neg (not_lt.mpr hneg)]
          show PRes.ok r.toTime = .ok (timeOfDayMicros t)
          rw [hrt]
      · rw [if_neg htd]
        have hneg : t < 0 := by
          rw [TDMIN, TDMAX] at htd
          omega
        rw [if_neg hge, if_pos hneg]
  refine ⟨fun d => main d, ?_, by decide, by decide⟩
  intro n
  rw [show parse_time (.scalar (.int n)) = parse_time_num (.finite (Dec.ofInt n)) from rfl,
    main (Dec.ofInt n)]
  rw [show Dec.mulPow10 (Dec.ofInt n) 6 = ⟨n * 1000000, 0⟩ by
    simp [Dec.ofInt, Dec.mulPow10]]
  rw [Dec.roundHalfEven_exp0, Dec.toQ_ofInt]
  by_cases h : (86400 : ℤ) ≤ n
  · rw [if_pos (show (86400 : ℚ) ≤ (n : ℚ) by exact_mod_cast h), if_pos h]
  · rw [if_neg (show ¬(86400 : ℚ) ≤ (n : ℚ) from fun hc => h (by exact_mod_cast hc)), if_neg h]
    by_cases h2 : n < 0
    · rw [if_pos (show n * 1000000 < 0 by omega), if_pos h2]
    · rw [if_neg (show ¬n * 1000000 < 0 by omega), if_neg h2]

/-! ### Claim C6: timezone-offset reconstruction -/

theorem digit_ne_dash {c : Char} (h : c.isDigit = true) : c ≠ '-' := by
  intro he
  subst he
  exact absurd h (by decide)

theorem digit_ne_plus {c : Char} (h : c.isDigit = true) : c ≠ '+' := by
  intro he
  subst he
  exact absurd h (by decide)

theorem pyIntOfString_digits (l : List Char) (hne : l ≠ []) (hd : ∀ c ∈ l, c.isDigit = true) :
    pyIntOfString l = some (digitsToNat l : ℤ) := by
  cases l with
  | nil => exact absurd rfl hne
  | cons c r =>
    have hc := hd c (List.mem_cons_self c r)
    have h1 : c ≠ '-' := digit_ne_dash hc
    have h2 : c ≠ '+' := digit_ne_plus hc
    simp [pyIntOfString, h1, h2, List.all_eq_true.mpr hd]

theorem digitsToNat_pair (a b : Char) : digitsToNat [a, b] = 10 * digitVal a + digitVal b := by
  simp [digitsToNat, List.foldl]

/-- C6: the timezone suffix is reconstructed as the claim states: `Z` gives a
fixed offset of 0 minutes; a sign followed by `HH` (optionally `:MM` or
`MM`) gives `sign * (60*HH + MM)` minutes with `MM` defaulting to 0 when
only two digits follow the sign; no suffix gives a naive result, distinct
from `+00:00`.  The first three conjuncts are the claim's example inputs
end-to-end; the remaining ones cover every suffix shape the grammar admits
(for offsets `timezone` can represent). -/
theorem claim_C6_tz_reconstruction :
    parse_datetime (.scalar (.str "2032-04-01T10:05:00-06:30")) =
      .ok ⟨2032, 4, 1, 10, 5, 0, 0, some (-390)⟩ ∧
    parse_datetime (.scalar (.str "2032-04-01T10:05:00Z")) =
      .ok ⟨2032, 4, 1, 10, 5, 0, 0, some 0⟩ ∧
    parse_datetime (.scalar (.str "2032-04-01T10:05:00")) =
      .ok ⟨2032, 4, 1, 10, 5, 0, 0, none⟩ ∧
    (∀ sgn a b c d : Char, ∀ hh mm : ℕ,
      (sgn = '+' ∨ sgn = '-') → a.isDigit = true → b.isDigit = true →
      c.isDigit = true → d.isDigit = true →
      hh = 10 * digitVal a + digitVal b → mm = 10 * digitVal c + digitVal d →
      60 * hh + mm < 1440 →
      tzinfoOfGroup (some [sgn, a, b, ':', c, d]) =
          some (some (if sgn = '-' then -((60 * hh + mm : ℕ) : ℤ) else ((60 * hh + mm : ℕ) : ℤ))) ∧
      tzinfoOfGroup (some [sgn, a, b, c, d]) =
          some (some (if sgn = '-' then -((60 * hh + mm : ℕ) : ℤ) else ((60 * hh + mm : ℕ) : ℤ))) ∧
      tzinfoOfGroup (some [sgn, a, b]) =
          some (some (if sgn = '-' then -((60 * hh : ℕ) : ℤ) else ((60 * hh : ℕ) : ℤ)))) ∧
    tzinfoOfGroup (some ['Z']) = some (some 0) ∧
    tzinfoOfGroup none = some none := by
  refine ⟨by decide, by decide, by decide, ?_, by decide, by decide⟩
  intro sgn a b c d hh mm hsgn ha hb hc hd hhh hmm hlt
  have hhb : hh ≤ 99 := by
    have := digitVal_lt ha
    have := digitVal_lt hb
    omega
  have hmb : mm ≤ 99 := by
    have := digitVal_lt hc
    have := digitVal_lt hd
    omega
  have hsz : sgn ≠ 'Z' := by
    rcases hsgn with h | h <;> subst h <;> decide
  refine ⟨?_, ?_, ?_⟩
  · rw [tzinfoOfGroup]
    rw [if_neg (by simp)]
    rw [show ([sgn, a, b, ':', c, d].length) = 6 from rfl]
    rw [if_pos (by norm_num)]
    rw [show [sgn, a, b, ':', c, d].drop (6 - 2) = [c, d] from rfl,
      show ([sgn, a, b, ':', c, d].drop 1).take 2 = [a, b] from rfl]
    rw [pyIntOfString_digits [c, d] (by simp) (by simp [hc, hd]),
      pyIntOfString_digits [a, b] (by simp) (by simp [ha, hb])]
    simp only [digitsToNat_pair]
    rcases hsgn with h | h <;> subst h
    · rw [if_neg (show ¬([('+' : Char), a, b, ':', c, d].head? = some '-') by simp)]
      rw [mkTimezone, if_pos (by push_cast; omega)]
      rw [if_neg (by decide), Option.map_some']
      congr 2
      push_cast
      omega
    · rw [if_pos (show ([('-' : Char), a, b, ':', c, d].head? = some '-') by simp)]
      rw [mkTimezone, if_pos (by push_cast; omega)]
      rw [if_pos rfl, Option.map_some']
      congr 2
      push_cast
      omega
  · rw [tzinfoOfGroup]
    rw [if_neg (by simp)]
    rw [show ([sgn, a, b, c, d].length) = 5 from rfl]
    rw [if_pos (by norm_num)]
    rw [show [sgn, a, b, c, d].drop (5 - 2) = [c, d] from rfl,
      show ([sgn, a, b, c, d].drop 1).take 2 = [a, b] from rfl]
    rw [pyIntOfString_digits [c, d] (by simp) (by simp [hc, hd]),
      pyIntOfString_digits [a, b] (by simp) (by simp [ha, hb])]
    simp only [digitsToNat_pair]
    rcases hsgn with h | h <;> subst h
    · rw [if_neg (show ¬([('+' : Char), a, b, c, d].head? = some '-') by simp)]
      rw [mkTimezone, if_pos (by push_cast; omega)]
      rw [if_neg (by decide), Option.map_some']
      congr 2
      push_cast
      omega
    · rw [if_pos (show ([('-' : Char), a, b, c, d].head? = some '-') by simp)]
      rw [mkTimezone, if_pos (by push_cast; omega)]
      rw [if_pos rfl, Option.map_some']
      congr 2
      push_cast
      omega
  · rw [tzinfoOfGroup]
    rw [if_neg (by simp)]
    rw [show ([sgn, a, b].length) = 3 from rfl]
    rw [if_neg (by norm_num)]
    rw [show ([sgn, a, b].drop 1).take 2 = [a, b] from rfl]
    rw [pyIntOfString_digits [a, b] (by simp) (by simp [ha, hb])]
    simp only [digitsToNat_pair]
    rcases hsgn with h | h <;> subst h
    · rw [if_neg (show ¬([('+' : Char), a, b].head? = some '-') by simp)]
      rw [mkTimezone, if_pos (by push_cast; omega)]
      rw [if_neg (by decide), Option.map_some']
      congr 2
      push_cast
      omega
    · rw [if_pos (show ([('-' : Char), a, b].head? = some '-') by simp)]
      rw [mkTimezone, if_pos (by push_cast; omega)]
      rw [if_pos rfl, Option.map_some']
      congr 2
      push_cast
      omega

/-- Witness for C6's universal part: the claim's own example digits
`-06:30` → −390 minutes, via the three suffix shapes. -/
theorem claim_C6_tz_reconstruction_witness :
    tzinfoOfGroup (some ['-', '0', '6', ':', '3', '0']) = some (some (-390)) ∧
    tzinfoOfGroup (some ['-', '0', '6', '3', '0']) = some (some (-390)) ∧
    tzinfoOfGroup (some ['-', '0', '6']) = some (some (-360)) := by
  have h := claim_C6_tz_reconstruction.2.2.2.1 '-' '0' '6' '3' '0' 6 30 (Or.inr rfl)
    (by decide) (by decide) (by decide) (by decide) (by decide) (by decide) (by norm_num)
  refine ⟨?_, ?_, ?_⟩
  · rw [h.1]
    decide
  · rw [h.2.1]
    rfl
  · rw [h.2.2]
    decide

/-! ### Claim C7: forced-negative microseconds in `parse_duration` -/

theorem digit_ne_char {c d : Char} (h : c.isDigit = true)
    (hd : d.toNat < 48 ∨ 57 < d.toNat) : c ≠ d := by
  intro he
  have h2 := isDigit_toNat h
  rw [he] at h2
  omega

theorem toLower_digit {c : Char} (h : c.isDigit = true) : c.toLower = c := by
  have h2 := isDigit_toNat h
  simp only [Char.toLower]
  rw [if_neg]
  simp only [ge_iff_le, Bool.and_eq_true, decide_eq_true_eq, not_and, not_le]
  omega

theorem isPySpace_digit {c : Char} (h : c.isDigit = true) : isPySpace c = false := by
  have h2 := isDigit_toNat h
  have hne : ∀ d : Char, d.toNat < 48 → c ≠ d := fun d hd he => by rw [he] at h2; omega
  simp [isPySpace, hne ' ' (by decide), hne '\t' (by decide), hne '\n' (by decide),
    hne '\r' (by decide), hne '\x0b' (by decide), hne '\x0c' (by decide)]

theorem pyFloatWord_digit {c : Char} (h : c.isDigit = true) (r : List Char) :
    pyFloatWord (c :: r) = none := by
  have hi : c ≠ 'i' := digit_ne_char h (Or.inr (by decide))
  have hn : c ≠ 'n' := digit_ne_char h (Or.inr (by decide))
  match r with
  | [] => rfl
  | [b] => rfl
  | b :: d :: r2 =>
    rw [pyFloatWord.eq_def]
    simp [toLower_digit h, hi, hn]

theorem digitsUCont_all (l : List Char) (hd : ∀ c ∈ l, c.isDigit = true) :
    digitsUCont l = (l, []) := by
  induction l with
  | nil => rfl
  | cons c r ih =>
    rw [digitsUCont.eq_def]
    simp [hd c (List.mem_cons_self c r), ih (fun x hx => hd x (List.mem_cons_of_mem c hx))]

theorem digitsU_all (l : List Char) (hd : ∀ c ∈ l, c.isDigit = true) :
    digitsU l = (l, []) := by
  cases l with
  | nil => rfl
  | cons c r =>
    rw [digitsU.eq_def]
    simp [hd c (List.mem_cons_self c r),
      digitsUCont_all r (fun x hx => hd x (List.mem_cons_of_mem c hx))]

theorem pyFloatNumber_digits (l : List Char) (hne : l ≠ []) (hd : ∀ c ∈ l, c.isDigit = true) :
    pyFloatNumber l = some (⟨(digitsToNat l : ℤ), 0⟩, []) := by
  rw [pyFloatNumber, digitsU_all l hd]
  simp [hne, digitsToNat]

theorem pyFloatOfString_digits (l : List Char) (hne : l ≠ []) (hd : ∀ c ∈ l, c.isDigit = true) :
    pyFloatOfString (String.mk l) = some (.finite ⟨(digitsToNat l : ℤ), 0⟩) := by
  obtain ⟨c, r, rfl⟩ : ∃ c r, l = c :: r := by
    cases l
    · exact absurd rfl hne
    · exact ⟨_, _, rfl⟩
  have hc := hd c (List.mem_cons_self c r)
  have h1 : ¬(c = '-') := digit_ne_dash hc
  have h2 : ¬(c = '+') := digit_ne_plus hc
  simp [pyFloatOfString, isPySpace_digit hc, h1, h2, pyFloatWord_digit hc r,
    pyFloatNumber_digits (c :: r) hne hd]

theorem pyFloatOfString_neg_digits (l : List Char) (hne : l ≠ [])
    (hd : ∀ c ∈ l, c.isDigit = true) :
    pyFloatOfString (String.mk ('-' :: l)) = some (.finite ⟨-(digitsToNat l : ℤ), 0⟩) := by
  obtain ⟨c, r, rfl⟩ : ∃ c r, l = c :: r := by
    cases l
    · exact absurd rfl hne
    · exact ⟨_, _, rfl⟩
  have hc := hd c (List.mem_cons_self c r)
  simp [pyFloatOfString, (show isPySpace '-' = false from rfl), pyFloatWord_digit hc r,
    pyFloatNumber_digits (c :: r) hne hd, Dec.neg]

theorem floatOfCapture_digits (l : List Char) (hne : l ≠ [])
    (hd : ∀ c ∈ l, c.isDigit = true) :
    floatOfCapture l = some ⟨(digitsToNat l : ℤ), 0⟩ := by
  rw [floatOfCapture, pyFloatOfString_digits l hne hd]

theorem floatOfCapture_neg_digits (l : List Char) (hne : l ≠ [])
    (hd : ∀ c ∈ l, c.isDigit = true) :
    floatOfCapture ('-' :: l) = some ⟨-(digitsToNat l : ℤ), 0⟩ := by
  rw [floatOfCapture, pyFloatOfString_neg_digits l hne hd]

/-- C7: the sign-consistency rule.  End-to-end, `parse_duration("-1.5")`
returns −1500000 µs, i.e. seconds = −1 and microseconds = −500000, and not
the partially-cancelling −1 s + 500000 µs; universally, whenever the seconds
capture starts with `'-'` and a fractional capture `m` is present, lines
225-229 turn the microseconds keyword into `'-' :: ljust6 m`, whose float
value is the nonpositive `-digitsToNat (ljust6 m)`. -/
theorem claim_C7_forced_negative_micro :
    parse_duration (.scalar (.str "-1.5")) = .ok (-1 * 1000000 + -500000) ∧
    parse_duration (.scalar (.str "-1.5")) ≠ .ok (-1 * 1000000 + 500000) ∧
    (∀ s m : List Char, s.head? = some '-' → m ≠ [] → (∀ c ∈ m, c.isDigit = true) →
      stdAdjustMicro s (some m) = some ('-' :: ljust6 m) ∧
      optCapture (stdAdjustMicro s (some m)) = some ⟨-(digitsToNat (ljust6 m) : ℤ), 0⟩ ∧
      -(digitsToNat (ljust6 m) : ℤ) ≤ 0) := by
  refine ⟨by decide, by decide, ?_⟩
  intro s m hs hm hdig
  have hsne : s ≠ [] := by
    intro he
    rw [he] at hs
    exact Option.noConfusion hs
  have hadj : stdAdjustMicro s (some m) = some ('-' :: ljust6 m) := by
    rw [stdAdjustMicro]
    simp only [Option.map_some']
    rw [if_pos]
    simp [hsne, hs]
  have hljne : ljust6 m ≠ [] := by
    rw [ljust6]
    intro he
    exact hm (List.append_eq_nil.mp he).1
  refine ⟨hadj, ?_, by omega⟩
  rw [hadj]
  show floatOfCapture ('-' :: ljust6 m) = _
  exact floatOfCapture_neg_digits (ljust6 m) hljne (ljust6_digits m hdig)

/-- Witness for C7's universal part at the claim's own input: seconds capture
`"-1"`, fraction capture `"5"`. -/
theorem claim_C7_forced_negative_micro_witness :
    stdAdjustMicro ['-', '1'] (some ['5']) = some ['-', '5', '0', '0', '0', '0', '0'] ∧
    optCapture (stdAdjustMicro ['-', '1'] (some ['5'])) = some ⟨-500000, 0⟩ := by
  have h := claim_C7_forced_negative_micro.2.2 ['-', '1'] ['5'] (by decide) (by decide)
    (by decide)
  refine ⟨?_, ?_⟩
  · rw [h.1]
    decide
  · rw [h.2.1]
    rfl

/-! ### Claim C9: the hour group's `(?=\d+:\d+)` lookahead -/

theorem headNotDigit_cons {c : Char} (h : c.isDigit = false) (r : List Char) :
    headNotDigit (c :: r) := by
  intro x hx
  simp only [List.head?_cons, Option.some.injEq] at hx
  rwa [← hx]

theorem headNotDigit_nil : headNotDigit ([] : List Char) :=
  fun _ hx => Option.noConfusion hx

theorem matchSignedInt_digits {α : Type} (a rest : List Char)
    (k : List Char → List Char → Option α) (hne : a ≠ [])
    (hd : ∀ c ∈ a, c.isDigit = true) (hr : headNotDigit rest) :
    matchSignedInt (a ++ rest) k = k a rest := by
  obtain ⟨c, a', rfl⟩ : ∃ c a', a = c :: a' := by
    cases a
    · exact absurd rfl hne
    · exact ⟨_, _, rfl⟩
  have hc := hd c (List.mem_cons_self c a')
  rw [matchSignedInt]
  rw [if_neg (show ¬(((c :: a') ++ rest).head? = some '-') by simp [digit_ne_dash hc])]
  rw [takeDigits1_spec (c :: a') rest hne hd hr]

theorem matchSignedInt_digits_nil {α : Type} (b : List Char)
    (k : List Char → List Char → Option α) (hne : b ≠ [])
    (hd : ∀ c ∈ b, c.isDigit = true) :
    matchSignedInt b k = k b [] := by
  have h := matchSignedInt_digits b [] k hne hd headNotDigit_nil
  rwa [List.append_nil] at h

theorem takeDigits1_all (b : List Char) (hne : b ≠ []) (hd : ∀ c ∈ b, c.isDigit = true) :
    takeDigits1 b = some (b, []) := by
  have h := takeDigits1_spec b [] hne hd headNotDigit_nil
  rwa [List.append_nil] at h

theorem lookDD_no_colon (b : List Char) (hne : b ≠ []) (hd : ∀ c ∈ b, c.isDigit = true) :
    lookDD b = false := by
  rw [lookDD, takeDigits1_all b hne hd]

theorem lookDD_colon (b c : List Char) (hnb : b ≠ []) (hnc : c ≠ [])
    (hdb : ∀ x ∈ b, x.isDigit = true) (hdc : ∀ x ∈ c, x.isDigit = true) :
    lookDD (b ++ ':' :: c) = true := by
  rw [lookDD, takeDigits1_spec b (':' :: c) hnb hdb (headNotDigit_cons (by decide) c)]
  show (takeDigits1 c).isSome = true
  rw [takeDigits1_all c hnc hdc]
  rfl

/-- C9: the hour group of the standard grammar is consumed only when a
`minutes:seconds` pair follows.  Concretely, `"4:08"` is 4 minutes 8 seconds
(248000000 µs) and `"4:08:16"` is 4 h 8 min 16 s (14896000000 µs), with the
corresponding group assignments; universally, every two-run input `a:b` of
digit runs matches with `minutes = a`, `seconds = b` and no hour group, and
every three-run input `a:b:c` matches with `hours = a`, `minutes = b`,
`seconds = c`. -/
theorem claim_C9_hour_lookahead :
    parse_duration (.scalar (.str "4:08")) = .ok 248000000 ∧
    parse_duration (.scalar (.str "4:08:16")) = .ok 14896000000 ∧
    standardDurationRe "4:08".data = some ⟨none, none, some ['4'], ['0', '8'], none⟩ ∧
    standardDurationRe "4:08:16".data =
      some ⟨none, some ['4'], some ['0', '8'], ['1', '6'], none⟩ ∧
    (∀ a b : List Char, a ≠ [] → b ≠ [] →
      (∀ c ∈ a, c.isDigit = true) → (∀ c ∈ b, c.isDigit = true) →
      standardDurationRe (a ++ ':' :: b) = some ⟨none, none, some a, b, none⟩) ∧
    (∀ a b c : List Char, a ≠ [] → b ≠ [] → c ≠ [] →
      (∀ x ∈ a, x.isDigit = true) → (∀ x ∈ b, x.isDigit = true) →
      (∀ x ∈ c, x.isDigit = true) →
      standardDurationRe (a ++ ':' :: (b ++ ':' :: c)) =
        some ⟨none, some a, some b, c, none⟩) := by
  refine ⟨by decide, by decide, by decide, by decide, ?_, ?_⟩
  · intro a b hna hnb hda hdb
    have hcb : headNotDigit (':' :: b) := headNotDigit_cons (by decide) b
    have e1 : stdSec none none (some a) b = some ⟨none, none, some a, b, none⟩ := by
      rw [stdSec, matchSignedInt_digits_nil b _ hnb hdb]
      rfl
    have e2 : stdMS none none (a ++ ':' :: b) = some ⟨none, none, some a, b, none⟩ := by
      rw [stdMS, matchSignedInt_digits a (':' :: b) _ hna hda hcb]
      show (stdSec none none (some a) b <|> _) = _
      rw [e1]
      rfl
    have e3 : stdTail none (a ++ ':' :: b) = some ⟨none, none, some a, b, none⟩ := by
      rw [stdTail, matchSignedInt_digits a (':' :: b) _ hna hda hcb]
      show ((if lookDD b then stdMS none (some a) b else none) <|>
        stdMS none none (a ++ ':' :: b)) = _
      rw [lookDD_no_colon b hnb hdb]
      show stdMS none none (a ++ ':' :: b) = _
      exact e2
    rw [standardDurationRe, matchSignedInt_digits a (':' :: b) _ hna hda hcb]
    show stdTail none (a ++ ':' :: b) = _
    exact e3
  · intro a b c hna hnb hnc hda hdb hdc
    have hcb : headNotDigit (':' :: (b ++ ':' :: c)) := headNotDigit_cons (by decide) _
    have hcc : headNotDigit (':' :: c) := headNotDigit_cons (by decide) c
    have e1 : stdSec none (some a) (some b) c = some ⟨none, some a, some b, c, none⟩ := by
      rw [stdSec, matchSignedInt_digits_nil c _ hnc hdc]
      rfl
    have e2 : stdMS none (some a) (b ++ ':' :: c) = some ⟨none, some a, some b, c, none⟩ := by
      rw [stdMS, matchSignedInt_digits b (':' :: c) _ hnb hdb hcc]
      show (stdSec none (some a) (some b) c <|> _) = _
      rw [e1]
      rfl
    have e3 : stdTail none (a ++ ':' :: (b ++ ':' :: c)) =
        some ⟨none, some a, some b, c, none⟩ := by
      rw [stdTail, matchSignedInt_digits a (':' :: (b ++ ':' :: c)) _ hna hda hcb]
      show ((if lookDD (b ++ ':' :: c) then stdMS none (some a) (b ++ ':' :: c) else none) <|>
        stdMS none none (a ++ ':' :: (b ++ ':' :: c))) = _
      rw [lookDD_colon b c hnb hnc hdb hdc, if_pos rfl, e2]
      rfl
    rw [standardDurationRe, matchSignedInt_digits a (':' :: (b ++ ':' :: c)) _ hna hda hcb]
    show stdTail none (a ++ ':' :: (b ++ ':' :: c)) = _
    exact e3

/-- Witness for C9's universal parts at the claim's own inputs `"4:08"`
and `"4:08:16"`. -/
theorem claim_C9_hour_lookahead_witness :
    standardDurationRe (['4'] ++ ':' :: ['0', '8']) =
      some ⟨none, none, some ['4'], ['0', '8'], none⟩ ∧
    standardDurationRe (['4'] ++ ':' :: (['0', '8'] ++ ':' :: ['1', '6'])) =
      some ⟨none, some ['4'], some ['0', '8'], ['1', '6'], none⟩ := by
  exact ⟨claim_C9_hour_lookahead.2.2.2.2.1 ['4'] ['0', '8'] (by decide) (by decide)
      (by decide) (by decide),
    claim_C9_hour_lookahead.2.2.2.2.2 ['4'] ['0', '8'] ['1', '6'] (by decide) (by decide)
      (by decide) (by decide) (by decide) (by decide)⟩

/-! ### Claim C8: fractional-second padding and truncation -/

theorem takeDigitsUpTo_all (n : ℕ) (f : List Char) (hd : ∀ c ∈ f, c.isDigit = true) :
    takeDigitsUpTo n f = (f.take n, f.drop n) := by
  have h := takeDigitsUpTo_spec n f [] hd headNotDigit_nil
  rwa [List.append_nil, List.append_nil] at h

/-- C8, counterexample: a datetime fraction of 13 digits is not truncated to
6 digits silently — the anchored `datetime_re` admits at most 12 fractional
digits (`\d{1,6}` capture plus `\d{0,6}` absorber), so the whole parse fails
with `DateTimeError` instead of succeeding. -/
theorem claim_C8_counterexample :
    parse_datetime (.scalar (.str "2032-04-01T10:05:00.1234567890123")) =
      .err .dateTimeError := by
  decide

/-- C8 (amended): a fractional-second capture is its first 6 fractional
digits, right-padded with `'0'` to 6 digits and read as a microsecond count
(`.5` → 500000, `.123456` → 123456); fractional digits 7..12 are discarded
silently.  `parse_time` (whose pattern is unanchored) accepts a fraction of
any length, keeping the first 6 digits; `parse_datetime` accepts at most 12
fractional digits — beyond that the parse fails rather than discarding
(see the counterexample). -/
theorem claim_C8_fraction_truncation :
    parse_time (.scalar (.str "04:08:16.5")) = .ok ⟨4, 8, 16, 500000⟩ ∧
    parse_time (.scalar (.str "04:08:16.123456")) = .ok ⟨4, 8, 16, 123456⟩ ∧
    parse_datetime (.scalar (.str "2032-04-01T10:05:00.123456789012")) =
      .ok ⟨2032, 4, 1, 10, 5, 0, 123456, none⟩ ∧
    (∀ f : List Char, f ≠ [] → (∀ c ∈ f, c.isDigit = true) →
      parse_time (.scalar (.str (String.mk
          ('0' :: '4' :: ':' :: '0' :: '8' :: ':' :: '1' :: '6' :: '.' :: f)))) =
        .ok ⟨4, 8, 16, digitsToNat (ljust6 (f.take 6))⟩) ∧
    (∀ f : List Char, f ≠ [] → f.length ≤ 12 → (∀ c ∈ f, c.isDigit = true) →
      parse_datetime (.scalar (.str (String.mk
          ('2' :: '0' :: '3' :: '2' :: '-' :: '0' :: '4' :: '-' :: '0' :: '1' :: 'T' ::
           '1' :: '0' :: ':' :: '0' :: '5' :: ':' :: '0' :: '0' :: '.' :: f)))) =
        .ok ⟨2032, 4, 1, 10, 5, 0, digitsToNat (ljust6 (f.take 6)), none⟩) := by
  refine ⟨by decide, by decide, by decide, ?_, ?_⟩
  · intro f hnf hdf
    have hTD := takeDigitsUpTo_all 6 f hdf
    have hne6 : ¬(f.take 6 = []) := by
      intro h
      rcases List.take_eq_nil_iff.mp h with h | h <;> simp_all
    have hus : digitsToNat (ljust6 (f.take 6)) ≤ 999999 := by
      apply digitsToNat_le_999999
      · exact ljust6_digits _ (fun c hc => hdf c (List.mem_of_mem_take hc))
      · rw [ljust6_length, List.length_take]
        omega
    have ht : timeRe ('0' :: '4' :: ':' :: '0' :: '8' :: ':' :: '1' :: '6' :: '.' :: f) =
        some ⟨4, 8, some 16, some (f.take 6)⟩ := by
      simp +decide [timeRe, matchD12, hTD, hne6]
    have hmk : mkTime 4 8 16 (digitsToNat (ljust6 (f.take 6))) =
        some ⟨4, 8, 16, digitsToNat (ljust6 (f.take 6))⟩ := by
      rw [mkTime, if_pos ⟨by norm_num, by norm_num, by norm_num, hus⟩]
    show parse_time_text ('0' :: '4' :: ':' :: '0' :: '8' :: ':' :: '1' :: '6' :: '.' :: f) = _
    rw [parse_time_text]
    simp only [ht, Option.getD_some, hmk]
  · intro f hnf hlen hdf
    obtain ⟨c, f0, rfl⟩ : ∃ c f0, f = c :: f0 := by
      cases f
      · exact absurd rfl hnf
      · exact ⟨_, _, rfl⟩
    have hd0 : ∀ x ∈ f0, x.isDigit = true := fun x hx => hdf x (List.mem_cons_of_mem c hx)
    have hT : (c :: f0).take 6 = c :: f0.take 5 := rfl
    have hA : takeDigitsUpTo 6 (c :: f0) = (c :: f0.take 5, f0.drop 5) := by
      rw [takeDigitsUpTo_all 6 (c :: f0) hdf]
      rfl
    have hle : (f0.drop 5).length ≤ 6 := by
      rw [List.length_drop]
      simp only [List.length_cons] at hlen
      omega
    have hB : takeDigitsUpTo 6 (f0.drop 5) = (f0.drop 5, []) := by
      rw [takeDigitsUpTo_all 6 (f0.drop 5) (fun x hx => hd0 x (List.mem_of_mem_drop hx))]
      rw [List.take_of_length_le hle, List.drop_eq_nil_of_le hle]
    have hz : matchTzEnd [] = some none := rfl
    have hz2 : tzinfoOfGroup none = some none := rfl
    have hus : digitsToNat (ljust6 (c :: f0.take 5)) ≤ 999999 := by
      apply digitsToNat_le_999999
      · apply ljust6_digits
        intro x hx
        exact hdf x (List.mem_of_mem_take (show x ∈ (c :: f0).take 6 by rw [hT]; exact hx))
      · rw [ljust6_length]
        simp only [List.length_cons, List.length_take]
        omega
    have hdt : datetimeRe
        ('2' :: '0' :: '3' :: '2' :: '-' :: '0' :: '4' :: '-' :: '0' :: '1' :: 'T' ::
         '1' :: '0' :: ':' :: '0' :: '5' :: ':' :: '0' :: '0' :: '.' :: (c :: f0)) =
        some ⟨2032, 4, 1, 10, 5, some 0, some (c :: f0.take 5), none⟩ := by
      simp +decide [datetimeRe, matchD4, matchD12, hA, hB, hz]
    have hmk : mkDatetime 2032 4 1 10 5 0 (digitsToNat (ljust6 (c :: f0.take 5))) none =
        some ⟨2032, 4, 1, 10, 5, 0, digitsToNat (ljust6 (c :: f0.take 5)), none⟩ := by
      rw [mkDatetime, if_pos]
      exact ⟨by norm_num, by norm_num, by norm_num, by norm_num, by norm_num, by decide,
        by norm_num, by norm_num, by norm_num, hus⟩
    show parse_datetime_text
        ('2' :: '0' :: '3' :: '2' :: '-' :: '0' :: '4' :: '-' :: '0' :: '1' :: 'T' ::
         '1' :: '0' :: ':' :: '0' :: '5' :: ':' :: '0' :: '0' :: '.' :: (c :: f0)) = _
    rw [parse_datetime_text]
    simp only [hdt, hz2, hmk, Option.getD_some]
    rw [hT]

/-- Witness for C8's universal parts at the claim's fractions `"5"` and a
7-digit fraction whose 7th digit is discarded. -/
theorem claim_C8_fraction_truncation_witness :
    parse_time (.scalar (.str (String.mk
        ('0' :: '4' :: ':' :: '0' :: '8' :: ':' :: '1' :: '6' :: '.' :: ['5'])))) =
      .ok ⟨4, 8, 16, digitsToNat (ljust6 (['5'].take 6))⟩ ∧
    parse_datetime (.scalar (.str (String.mk
        ('2' :: '0' :: '3' :: '2' :: '-' :: '0' :: '4' :: '-' :: '0' :: '1' :: 'T' ::
         '1' :: '0' :: ':' :: '0' :: '5' :: ':' :: '0' :: '0' :: '.' ::
         ['1', '2', '3', '4', '5', '6', '7'])))) =
      .ok ⟨2032, 4, 1, 10, 5, 0,
        digitsToNat (ljust6 (['1', '2', '3', '4', '5', '6', '7'].take 6)), none⟩ := by
  exact ⟨claim_C8_fraction_truncation.2.2.2.1 ['5'] (by decide) (by decide),
    claim_C8_fraction_truncation.2.2.2.2 ['1', '2', '3', '4', '5', '6', '7'] (by decide)
      (by decide) (by decide)⟩
